import Mathlib

/-!
# The visitors of `ast_dumper.cc`

A shallow embedding of `src/ast_dumper.cc`: the node model, `ASTEval`, the stack
evaluator, and `ASTDumper`, the printer.  On the evaluator:

* A node is a value of `Node`; one constructor per node kind, with the fields the
  visitors read.
* The operand stack `stack` is a `List Int` whose LAST element is the top
  (`push_back` appends, `pop_back` drops the last element).
* A handler is a function from the stack before it to `Except Failure Stack`.
  `utils::error(msg)` does not return: it ends the traversal with
  `Failure.error msg`.  An execution for which C++ defines no result (a read
  outside the vector, a division the hardware faults on) ends with
  `Failure.undefined`; no `utils::error` call is involved in it.
* `int` is the 32-bit two's-complement integer.  `+`, `-`, `*` wrap around
  (`toInt`); `/` truncates toward zero (`Int.tdiv`) and faults when the divisor
  is 0 or the quotient is not an `int` (`INT_MIN / -1`).
-/

namespace ast

/-! ## Node model -/

/-- Modelled from the spec: the operator tag of a BinaryOperator (`binop.op`);
its declaration is in `nodes.hh`, which is not among the sources.  The ten tags
are the `case` labels of the `switch` of `ASTEval::visit(const BinaryOperator &)`,
in that order. -/
inductive Operator where
  | o_plus | o_minus | o_times | o_divide
  | o_eq | o_neq | o_lt | o_le | o_gt | o_ge
  deriving DecidableEq, Repr

/-- Modelled from the spec: the resolved type of a declaration (`ast::Type`),
declared outside the sources; the four values are those named in `get_type_name`
and `ASTDumper::visit(const VarDecl &)`. -/
inductive AstType where
  | t_int | t_string | t_void | t_undef
  deriving DecidableEq, Repr

/-- Modelled from the spec: what the visitors read through the non-owning
reference of an Identifier to its declaration, namely the text of the
declaration's source location (`decl.get().loc`) and its depth. -/
structure DeclRef where
  loc : String
  depth : Int
  deriving DecidableEq, Repr

/-- Modelled from the spec: the abstract syntax tree.  The node classes are
declared in `nodes.hh`, which is not among the sources; section 3 of the spec
lists the kinds and their fields.  There is one constructor per `visit`
overload of `ast_dumper.cc`, and it carries the fields that the handlers read:
a non-owning reference (`decl` of a FunCall, `loop` of a Break) is the text of
the source location read through it, if the reference is set; the loop
variable of a ForLoop, "a VarDecl whose initializer is the low bound", is given
by the three fields read of it, the initializer being present. -/
inductive Node where
  | IntegerLiteral (value : Int)
  | StringLiteral (value : String)
  | BinaryOperator (op : Operator) (left right : Node)
  | Sequence (exprs : List Node)
  | Let (decls : List Node) (sequence : List Node)
  | Identifier (name : String) (decl : Option DeclRef) (depth : Int)
  | IfThenElse (condition then_part else_part : Node)
  | VarDecl (name : String) (type_name : Option String) (expr : Option Node)
      (escapes : Bool) (type : AstType)
  | FunDecl (name external_name : String) (params : List Node)
      (type_name : Option String) (expr : Node)
  | FunCall (func_name : String) (decl : Option String) (args : List Node)
  | WhileLoop (condition body : Node)
  | ForLoop (var_name : String) (var_escapes : Bool) (var_expr : Node)
      (high body : Node)
  | Break (loop : Option String)
  | Assign (lhs rhs : Node)

/-! ## `int` arithmetic -/

/-- The least `int`. -/
def INT_MIN : Int := -2147483648

/-- The greatest `int`. -/
def INT_MAX : Int := 2147483647

/-- The `int` that a mathematical result `x` is stored as: `x` reduced modulo
`2^32` into `[INT_MIN, INT_MAX]`. -/
def toInt (x : Int) : Int := (x + 2147483648) % 4294967296 - 2147483648

/-- Whether `x` is a value of type `int`. -/
def isInt (x : Int) : Bool := decide (INT_MIN ≤ x) && decide (x ≤ INT_MAX)

/-! ## `ASTEval` -/

/-- How a traversal ends when it does not run to completion. -/
inductive Failure where
  /-- The call `utils::error(msg)`. -/
  | error (msg : String)
  /-- An execution C++ gives no meaning to: a read outside the vector, a
  `pop_back` of the empty vector, a division that faults. -/
  | undefined
  deriving DecidableEq, Repr

/-- Modelled from the spec: the operand stack `stack` of `ASTEval`, "one operand
stack of integers"; the member is declared in `ast_dumper.hh`, which is not
among the sources.  The calls made on it are those of a `std::vector`, and every
value a handler computes goes through the local `int eval`.  The top is the
last element. -/
abbrev Stack := List Int

/-- The outcome of a handler: the stack it leaves, or the way it failed. -/
abbrev Outcome := Except Failure Stack

/-- Decidable equality of outcomes, by cases. -/
instance : DecidableEq Outcome := fun a b =>
  match a, b with
  | .ok s, .ok t =>
    if h : s = t then isTrue (by rw [h]) else isFalse (by intro e; cases e; exact h rfl)
  | .error f, .error g =>
    if h : f = g then isTrue (by rw [h]) else isFalse (by intro e; cases e; exact h rfl)
  | .ok _, .error _ => isFalse (by intro e; cases e)
  | .error _, .ok _ => isFalse (by intro e; cases e)

/-- Modelled from the spec: `utils::error`, declared in `utils/errors.hh`, which is
not among the sources.  By the spec a failure aborts the whole traversal in
progress and is not recovered (a process-wide abort-on-error call), so the call
does not return: the traversal ends with the failure that carries the
message. -/
abbrev utils_error (msg : String) : Outcome := .error (.error msg)

/-- The call `stack.push_back(v)`. -/
def push_back (stack : Stack) (v : Int) : Stack := stack ++ [v]

/-- The call `stack.pop_back()` on a non-empty stack. -/
def pop_back (stack : Stack) : Stack := stack.dropLast

/-- The read `stack[stack.size()-k]`: `none` when the index is outside the vector
(`k = 0`, or `k > stack.size()`, where the unsigned subtraction wraps around). -/
def back (stack : Stack) (k : Nat) : Option Int :=
  if k ≤ stack.length then stack[stack.length - k]? else none

/-- The right-hand side of `eval = ...` in each `case` of the `switch` of
`ASTEval::visit(const BinaryOperator &)`, on the operands
`a = stack[stack.size()-2]` and `b = stack[stack.size()-1]`; `none` when the
division faults. -/
def binop_eval (op : Operator) (a b : Int) : Option Int :=
  match op with
  | .o_plus => some (toInt (a + b))
  | .o_minus => some (toInt (a - b))
  | .o_times => some (toInt (a * b))
  | .o_divide =>
    if b = 0 ∨ (a = INT_MIN ∧ b = -1) then none else some (Int.tdiv a b)
  | .o_eq => some (if a = b then 1 else 0)
  | .o_neq => some (if a ≠ b then 1 else 0)
  | .o_lt => some (if a < b then 1 else 0)
  | .o_le => some (if a ≤ b then 1 else 0)
  | .o_gt => some (if a > b then 1 else 0)
  | .o_ge => some (if a ≥ b then 1 else 0)

/-- The part of `ASTEval::visit(const BinaryOperator &)` that follows the two
`accept` calls: the guard on the stack size, then the `switch`. -/
def binop_apply (op : Operator) (stack : Stack) : Outcome :=
  if stack.length < 2 then utils_error "Evaluate: error: stack error"
  else
    match back stack 2, back stack 1 with
    | some a, some b =>
      match binop_eval op a b with
      | some eval => .ok (push_back (pop_back (pop_back stack)) eval)
      | none => .error .undefined
    | _, _ => .error .undefined

/-- The part of `ASTEval::visit(const IfThenElse &)` that follows the evaluation
of the condition: `int eval = stack[stack.size()-1]; stack.pop_back();`, giving
the value read and the stack left. -/
def ite_pop (stack : Stack) : Except Failure (Int × Stack) :=
  match back stack 1 with
  | some eval => .ok (eval, pop_back stack)
  | none => .error .undefined

mutual
/-- The dispatch `node.accept(*this)` for `ASTEval`: the handler
`ASTEval::visit` of the node's kind, run on `stack`. -/
def evalNode : Node → Stack → Outcome
  | .IntegerLiteral value, stack => .ok (push_back stack value)
  | .BinaryOperator op left right, stack =>
    match evalNode left stack with
    | .error f => .error f
    | .ok stack1 =>
      match evalNode right stack1 with
      | .error f => .error f
      | .ok stack2 => binop_apply op stack2
  | .Sequence exprs, stack => evalExprs exprs stack
  | .IfThenElse condition then_part else_part, stack =>
    match evalNode condition stack with
    | .error f => .error f
    | .ok stack1 =>
      match ite_pop stack1 with
      | .error f => .error f
      | .ok (eval, stack2) =>
        if eval ≠ 0 then evalNode then_part stack2 else evalNode else_part stack2
  | .StringLiteral _, _ => utils_error "Evaluate: unsupported: StringLiteral"
  | .Let _ _, _ => utils_error "Evaluate: unsupported: Let"
  | .Identifier _ _ _, _ => utils_error "Evaluate: unsupported: Identifier"
  | .VarDecl _ _ _ _ _, _ => utils_error "Evaluate: unsupported: VarDecl"
  | .FunDecl _ _ _ _ _, _ => utils_error "Evaluate: unsupported: FunDecl"
  | .FunCall _ _ _, _ => utils_error "Evaluate: unsupported: FunCall"
  | .WhileLoop _ _, _ => utils_error "Evaluate: unsupported: WhileLoop"
  | .ForLoop _ _ _ _ _, _ => utils_error "Evaluate: unsupported: ForLoop"
  | .Break _, _ => utils_error "Evaluate: unsupported: Break"
  | .Assign _ _, _ => utils_error "Evaluate: unsupported: Assign"
/-- The loop of `ASTEval::visit(const Sequence &)` over the elements that remain. -/
def evalExprs : List Node → Stack → Outcome
  | [], stack => .ok stack
  | expr :: rest, stack =>
    match evalNode expr stack with
    | .error f => .error f
    | .ok stack1 => evalExprs rest stack1
end


/-! ## Reference definitions for the statements -/

/-- Whether the tree is built only from `IntegerLiteral` and `BinaryOperator`
nodes. -/
def isArith : Node → Bool
  | .IntegerLiteral _ => true
  | .BinaryOperator _ left right => isArith left && isArith right
  | _ => false

/-- The quotient of `a` by `b` truncated toward zero, spelled out: the quotient
of the magnitudes rounded down, with the sign of the product. -/
def truncQuotient (a b : Int) : Int :=
  Int.sign a * Int.sign b * ((a.natAbs / b.natAbs : Nat) : Int)

/-- The usual denotation of an operator on mathematical integers: `+`, `-`, `*`,
the quotient truncated toward zero, and 1 or 0 for a comparison that holds or
does not. -/
def denoteOp (op : Operator) (a b : Int) : Int :=
  match op with
  | .o_plus => a + b
  | .o_minus => a - b
  | .o_times => a * b
  | .o_divide => truncQuotient a b
  | .o_eq => if a = b then 1 else 0
  | .o_neq => if a ≠ b then 1 else 0
  | .o_lt => if a < b then 1 else 0
  | .o_le => if a ≤ b then 1 else 0
  | .o_gt => if a > b then 1 else 0
  | .o_ge => if a ≥ b then 1 else 0

/-- The usual denotation of an arithmetic expression, the left child being the
left operand (0 for a node that is not arithmetic). -/
def denote : Node → Int
  | .IntegerLiteral value => value
  | .BinaryOperator op left right => denoteOp op (denote left) (denote right)
  | _ => 0

/-- Whether no division of the tree has a right operand that denotes 0. -/
def noDivByZero : Node → Bool
  | .BinaryOperator op left right =>
    noDivByZero left && noDivByZero right && !(decide (op = .o_divide) && decide (denote right = 0))
  | _ => true

/-- Whether every literal and every intermediate result of the tree is an
`int`. -/
def inIntRange : Node → Bool
  | .IntegerLiteral value => isInt value
  | .BinaryOperator op left right =>
    inIntRange left && inIntRange right && isInt (denoteOp op (denote left) (denote right))
  | _ => true

mutual
/-- Whether every node of the tree is of one of the kinds IntegerLiteral,
BinaryOperator, Sequence and IfThenElse. -/
def supportedOnly : Node → Bool
  | .IntegerLiteral _ => true
  | .BinaryOperator _ left right => supportedOnly left && supportedOnly right
  | .Sequence exprs => supportedOnlyList exprs
  | .IfThenElse condition then_part else_part =>
    supportedOnly condition && supportedOnly then_part && supportedOnly else_part
  | _ => false
/-- The same for every node of a list of trees. -/
def supportedOnlyList : List Node → Bool
  | [] => true
  | expr :: rest => supportedOnly expr && supportedOnlyList rest
end

mutual
/-- Whether the tree contains a FunCall node anywhere, whatever it is below. -/
def containsFunCall : Node → Bool
  | .FunCall _ _ _ => true
  | .IntegerLiteral _ => false
  | .StringLiteral _ => false
  | .Identifier _ _ _ => false
  | .Break _ => false
  | .BinaryOperator _ left right => containsFunCall left || containsFunCall right
  | .Sequence exprs => containsFunCallList exprs
  | .Let decls sequence => containsFunCallList decls || containsFunCallList sequence
  | .IfThenElse condition then_part else_part =>
    containsFunCall condition || containsFunCall then_part || containsFunCall else_part
  | .VarDecl _ _ expr _ _ => containsFunCallOption expr
  | .FunDecl _ _ params _ expr => containsFunCallList params || containsFunCall expr
  | .WhileLoop condition body => containsFunCall condition || containsFunCall body
  | .ForLoop _ _ var_expr high body =>
    containsFunCall var_expr || containsFunCall high || containsFunCall body
  | .Assign lhs rhs => containsFunCall lhs || containsFunCall rhs
/-- The same for a list of trees. -/
def containsFunCallList : List Node → Bool
  | [] => false
  | expr :: rest => containsFunCall expr || containsFunCallList rest
/-- The same for an optional tree. -/
def containsFunCallOption : Option Node → Bool
  | none => false
  | some expr => containsFunCall expr
end

mutual
/-- Whether the traversal of the tree from `stack` arrives at a FunCall node: the
node is a FunCall, or a child arrives at one, every child dispatched before
that child having succeeded; the children of a node are taken in the order of
its handler in `ASTEval`, the one branch of an IfThenElse that its condition
selects included, the other branch and the children of unsupported kinds
not. -/
def reachesFunCall : Node → Stack → Bool
  | .FunCall _ _ _, _ => true
  | .BinaryOperator _ left right, stack =>
    reachesFunCall left stack ||
      (match evalNode left stack with
       | .ok stack1 => reachesFunCall right stack1
       | .error _ => false)
  | .Sequence exprs, stack => reachesFunCallList exprs stack
  | .IfThenElse condition then_part else_part, stack =>
    reachesFunCall condition stack ||
      (match evalNode condition stack with
       | .ok stack1 =>
         match ite_pop stack1 with
         | .ok (eval, stack2) =>
           if eval ≠ 0 then reachesFunCall then_part stack2
           else reachesFunCall else_part stack2
         | .error _ => false
       | .error _ => false)
  | _, _ => false
/-- The same for the children of a Sequence, from left to right. -/
def reachesFunCallList : List Node → Stack → Bool
  | [], _ => false
  | expr :: rest, stack =>
    reachesFunCall expr stack ||
      (match evalNode expr stack with
       | .ok stack1 => reachesFunCallList rest stack1
       | .error _ => false)
end

mutual
/-- Whether the tree is built only from IntegerLiteral, BinaryOperator and
IfThenElse nodes and Sequence nodes of exactly one element. -/
def oneValueShape : Node → Bool
  | .IntegerLiteral _ => true
  | .BinaryOperator _ left right => oneValueShape left && oneValueShape right
  | .Sequence exprs => oneValueShapeSingle exprs
  | .IfThenElse condition then_part else_part =>
    oneValueShape condition && oneValueShape then_part && oneValueShape else_part
  | _ => false
/-- Whether the list has exactly one element, of that shape. -/
def oneValueShapeSingle : List Node → Bool
  | [expr] => oneValueShape expr
  | _ => false
end

/-! ## `ASTDumper`

The handlers of `ASTDumper` are in `ast_dumper.cc`; the class itself, with its
members and the five functions `inc`, `dec`, `nl`, `inl` and `dnl` that the
handlers call, is declared in `ast_dumper.hh`, which is not among the sources.
These five are modelled from the spec, which describes a line break "followed by
level-proportional indentation", an opening and a closing that change the level
"without forcing an immediate line break", and an opening and a closing that
change the level and emit such a line break.  What the handlers show of them:

* in the handlers of Sequence and Let a block is opened by `inc()`, each element
  is put on its own line by a call of `nl()`, and the block is closed by `dnl()`,
  the only call between the last element and the closing `)`, `in` or `end`.
  So `nl` is the line break, `inc` opens without a line break, and `dnl` closes
  with a line break: it decrements, then breaks the line;
* `inl` and `dec` are the other opening and the other closing: `inl` increments,
  then breaks the line, and `dec` only decrements.

A function has one behaviour in all the handlers that call it.
-/

/-- Modelled from the spec: the members of `ASTDumper` that change during a
traversal; the class is declared in `ast_dumper.hh`, which is not among the
sources.  By the spec the printer has "a single append-only text sink" and "one
integer indentation level, starting at 0".  `ostream` is the text written so
far, as the list of its characters.  `lowest` is not a member: it records the
least value `indent_level` has been given by a decrement, so that "the level
never goes below its starting value" can be stated. -/
structure Dumper where
  ostream : List Char
  indent_level : Int
  lowest : Int
  deriving DecidableEq, Repr

/-- Modelled from the spec: what the printer takes from outside and does not
change: the `verbose` flag of `ASTDumper`, the table `operator_name` of
`nodes.hh`, and the text that indents a line by one level, which the spec leaves
open ("level-proportional indentation"). -/
structure DumperConfig where
  verbose : Bool
  operator_name : Operator → String
  indent_unit : String

/-- The statement `*ostream << s`. -/
def put (s : String) (d : Dumper) : Dumper :=
  { d with ostream := d.ostream ++ s.toList }

/-- The indentation of a line at `level`: one unit per level. -/
def indentation (cfg : DumperConfig) (level : Int) : List Char :=
  (List.replicate level.toNat cfg.indent_unit.toList).flatten

/-- Modelled from the spec: `ASTDumper::inc`, the opening that "increments the
level without forcing an immediate line break". -/
def inc (d : Dumper) : Dumper :=
  { d with indent_level := d.indent_level + 1 }

/-- Modelled from the spec: `ASTDumper::dec`, the closing that decrements the
level without a line break. -/
def dec (d : Dumper) : Dumper :=
  { d with indent_level := d.indent_level - 1, lowest := min d.lowest (d.indent_level - 1) }

/-- Modelled from the spec: `ASTDumper::nl`, "a line break followed by
level-proportional indentation". -/
def nl (cfg : DumperConfig) (d : Dumper) : Dumper :=
  { d with ostream := d.ostream ++ '\n' :: indentation cfg d.indent_level }

/-- Modelled from the spec: `ASTDumper::inl`, the opening that "increments the
level and emits a line break followed by level-proportional indentation":
`inc` then `nl`. -/
def inl (cfg : DumperConfig) (d : Dumper) : Dumper := nl cfg (inc d)

/-- Modelled from the spec: `ASTDumper::dnl`, the closing that "decrements the
level and emits a line break followed by level-proportional indentation":
`dec` then `nl`.  It is the call between the last child of a Sequence and its
closing parenthesis. -/
def dnl (cfg : DumperConfig) (d : Dumper) : Dumper := nl cfg (dec d)

/-- The function `get_type_name`; `none` is the call of `utils::error` in the
`default` branch. -/
def get_type_name (t : AstType) : Option String :=
  match t with
  | .t_int => some "int"
  | .t_string => some "string"
  | _ => none

/-- The body of the loop of `ASTDumper::visit(const StringLiteral &)` for the
character `c`: the `switch`.  A `char` of the string is taken as a character;
the nine `case` labels are the characters with the codes 34, 92, 7, 8, 9, 10,
11, 12 and 13. -/
def dumpChar (c : Char) (d : Dumper) : Dumper :=
  if c = '"' then put "\\\"" d
  else if c = '\\' then put "\\\\" d
  else if c = '\x07' then put "\\a" d
  else if c = '\x08' then put "\\b" d
  else if c = '\t' then put "\\t" d
  else if c = '\n' then put "\\n" d
  else if c = '\x0b' then put "\\v" d
  else if c = '\x0c' then put "\\f" d
  else if c = '\r' then put "\\r" d
  else { d with ostream := d.ostream ++ [c] }

/-- The loop of `ASTDumper::visit(const StringLiteral &)` over the characters
that remain. -/
def dumpChars : List Char → Dumper → Dumper
  | [], d => d
  | c :: rest, d => dumpChars rest (dumpChar c d)

mutual
/-- The dispatch `node.accept(*this)` for `ASTDumper`: the handler
`ASTDumper::visit` of the node's kind, run on the state `d`. -/
def dump (cfg : DumperConfig) : Node → Dumper → Dumper
  | .IntegerLiteral value, d => put (toString value) d
  | .StringLiteral value, d =>
    let d := put "\"" d
    let d := dumpChars value.toList d
    put "\"" d
  | .BinaryOperator op left right, d =>
    let d := put "(" d
    let d := dump cfg left d
    let d := put (cfg.operator_name op) d
    let d := dump cfg right d
    put ")" d
  | .Sequence exprs, d =>
    let d := put "(" d
    let d := inc d
    let d := dumpExprs cfg exprs true d
    let d := dnl cfg d
    put ")" d
  | .Let decls sequence, d =>
    let d := put "let" d
    let d := inc d
    let d := dumpDecls cfg decls d
    let d := dnl cfg d
    let d := put "in" d
    let d := inc d
    let d := dumpExprs cfg sequence true d
    let d := dnl cfg d
    put "end" d
  | .Identifier name decl depth, d =>
    let d := put name d
    if cfg.verbose then
      match decl with
      | some r =>
        let d := put r.loc (put "decl:" (put "/*" d))
        let depth_diff := toInt (depth - r.depth)
        let d := if depth_diff ≠ 0 then put (toString depth_diff) (put " depth_diff:" d) else d
        put "*/" d
      | none => d
    else d
  | .IfThenElse condition then_part else_part, d =>
    let d := put "if " d
    let d := inl cfg d
    let d := dump cfg condition d
    let d := dnl cfg d
    let d := put " then " d
    let d := inl cfg d
    let d := dump cfg then_part d
    let d := dnl cfg d
    let d := put " else " d
    let d := inl cfg d
    let d := dump cfg else_part d
    dec d
  | .VarDecl name type_name expr escapes type, d =>
    let d := if expr.isSome then put "var " d else d
    let d := put name d
    let d := if cfg.verbose && escapes then put "/*e*/" d else d
    let d :=
      match type_name with
      | some tn => put tn (put ": " d)
      | none =>
        if type ≠ .t_undef ∧ type ≠ .t_void then
          match get_type_name type with
          | some tn => put tn (put ": " d)
          -- not reached: `type` is `t_int` or `t_string` here
          | none => d
        else d
    dumpInit cfg expr d
  | .FunDecl name external_name params type_name expr, d =>
    let d := put name (put "function " d)
    let d :=
      if cfg.verbose && decide (name ≠ external_name) then
        put "*/" (put external_name (put "/*" d))
      else d
    let d := put "(" d
    let d := dumpArgs cfg params true d
    let d := put ")" d
    let d :=
      match type_name with
      | some tn => put tn (put ": " d)
      | none => d
    let d := put " = " d
    let d := inl cfg d
    let d := dump cfg expr d
    dec d
  | .FunCall func_name decl args, d =>
    let d := put func_name d
    let d :=
      if cfg.verbose then
        match decl with
        | some loc => put "*/" (put loc (put "decl:" (put "/*" d)))
        | none => d
      else d
    let d := put "(" d
    let d := dumpArgs cfg args true d
    put ")" d
  | .WhileLoop condition body, d =>
    let d := put "while " d
    let d := dump cfg condition d
    let d := put " do" d
    let d := inl cfg d
    let d := dump cfg body d
    dec d
  | .ForLoop var_name var_escapes var_expr high body, d =>
    let d := put var_name (put "for " d)
    let d := if cfg.verbose && var_escapes then put "/*e*/" d else d
    let d := put " := " d
    let d := dump cfg var_expr d
    let d := put " to " d
    let d := dump cfg high d
    let d := put " do" d
    let d := inl cfg d
    let d := dump cfg body d
    dec d
  | .Break loop, d =>
    let d := put "break" d
    if cfg.verbose then
      match loop with
      | some loc => put "*/" (put loc (put "/*loop:" d))
      | none => d
    else d
  | .Assign lhs rhs, d =>
    let d := dump cfg lhs d
    let d := put " := " d
    dump cfg rhs d
/-- The loop of the handlers of Sequence and Let over the expressions that remain;
`first` says whether the iterator is still at `exprs.cbegin()`. -/
def dumpExprs (cfg : DumperConfig) : List Node → Bool → Dumper → Dumper
  | [], _, d => d
  | expr :: rest, first, d =>
    let d := if first then d else put ";" d
    let d := nl cfg d
    let d := dump cfg expr d
    dumpExprs cfg rest false d
/-- The loop of the handler of Let over the declarations that remain. -/
def dumpDecls (cfg : DumperConfig) : List Node → Dumper → Dumper
  | [], d => d
  | decl :: rest, d =>
    let d := nl cfg d
    let d := dump cfg decl d
    dumpDecls cfg rest d
/-- The loop of the handlers of FunDecl and FunCall over the parameters or
arguments that remain; `first` says whether the iterator is still at the
beginning. -/
def dumpArgs (cfg : DumperConfig) : List Node → Bool → Dumper → Dumper
  | [], _, d => d
  | arg :: rest, first, d =>
    let d := if first then d else put ", " d
    let d := dump cfg arg d
    dumpArgs cfg rest false d
/-- The end of `ASTDumper::visit(const VarDecl &)`: the initializer, when there
is one. -/
def dumpInit (cfg : DumperConfig) : Option Node → Dumper → Dumper
  | none, d => d
  | some expr, d =>
    let d := put " := " d
    dump cfg expr d
end

/-- What a node prints at indentation level `level`: the text a traversal adds to
an empty sink. -/
def printed (cfg : DumperConfig) (node : Node) (level : Int) : List Char :=
  (dump cfg node ⟨[], level, level⟩).ostream

/-- A table of operator symbols, for the examples. -/
def sampleOperatorName : Operator → String
  | .o_plus => "+" | .o_minus => "-" | .o_times => "*" | .o_divide => "/"
  | .o_eq => "=" | .o_neq => "<>" | .o_lt => "<" | .o_le => "<="
  | .o_gt => ">" | .o_ge => ">="

/-- A configuration for the examples: not verbose, two spaces per level. -/
def sampleConfig : DumperConfig := ⟨false, sampleOperatorName, "  "⟩

/-! ## Reference definitions for the statements on the printer -/

/-- What the loop over the expressions of a Sequence or of the body of a Let
prints at `level`: for each expression a `;` unless it is the first, a line
break with the indentation of `level`, and the expression printed at
`level`. -/
def exprLines (cfg : DumperConfig) (level : Int) : List Node → Bool → List Char
  | [], _ => []
  | expr :: rest, first =>
    (if first then [] else [';']) ++ '\n' :: indentation cfg level ++ printed cfg expr level
      ++ exprLines cfg level rest false

/-- What the loop over the declarations of a Let prints at `level`: for each
declaration a line break with the indentation of `level`, and the declaration
printed at `level`. -/
def declLines (cfg : DumperConfig) (level : Int) : List Node → List Char
  | [] => []
  | decl :: rest =>
    '\n' :: indentation cfg level ++ printed cfg decl level ++ declLines cfg level rest

/-- What the loop over parameters or arguments prints at `level`: each one printed
at `level`, with `, ` before it unless it is the first. -/
def argTexts (cfg : DumperConfig) (level : Int) : List Node → Bool → List Char
  | [], _ => []
  | arg :: rest, first =>
    (if first then [] else [',', ' ']) ++ printed cfg arg level ++ argTexts cfg level rest false

/-- What the end of the VarDecl handler prints at `level`: ` := ` and the
initializer, when there is one. -/
def initText (cfg : DumperConfig) (level : Int) : Option Node → List Char
  | none => []
  | some expr => " := ".toList ++ printed cfg expr level

/-- A piece of a traversal `f` prints the text `text level` whatever was written
before it, from every level, and leaves the level as it found it, without
having gone below it. -/
def Framed (f : Dumper → Dumper) (text : Int → List Char) : Prop :=
  ∀ (out : List Char) (level lowest : Int), lowest ≤ level →
    f ⟨out, level, lowest⟩ = ⟨out ++ text level, level, lowest⟩

/-- The nine characters that have an escape, each with the character that follows
the backslash in its escape: the quote, the backslash, BEL, BS, TAB, LF, VT, FF
and CR. -/
def escapeTable : List (Char × Char) :=
  [('"', '"'), ('\\', '\\'), ('\x07', 'a'), ('\x08', 'b'), ('\t', 't'), ('\n', 'n'),
    ('\x0b', 'v'), ('\x0c', 'f'), ('\r', 'r')]

/-- The character that follows the backslash in the escape of `c`, when `c` is
one of the nine. -/
def escapeLetter (c : Char) : Option Char := escapeTable.lookup c

/-- Whether `c` is one of the nine characters that have an escape. -/
def hasEscape (c : Char) : Bool := (escapeLetter c).isSome

/-- The two-character escape of `c` when it has one, and `c` itself unchanged
otherwise. -/
def escaped (c : Char) : List Char :=
  match escapeLetter c with
  | some x => ['\\', x]
  | none => [c]

/-- The characters of a string, each replaced by `escaped`, in order. -/
def escapedText (s : List Char) : List Char := (s.map escaped).flatten

/-- The type annotation of a VarDecl: the declared type name when there is one,
otherwise `int` or `string` for these resolved types, and nothing for a
resolved type that is void or unresolved. -/
def typeAnnotation (type_name : Option String) (type : AstType) : List Char :=
  match type_name with
  | some tn => ": ".toList ++ tn.toList
  | none =>
    match type with
    | .t_int => ": int".toList
    | .t_string => ": string".toList
    | _ => []

/-- The character that the escape `\x` stands for, `x` being the character after
the backslash. -/
def unescapeLetter (x : Char) : Char :=
  if x = 'a' then '\x07'
  else if x = 'b' then '\x08'
  else if x = 't' then '\t'
  else if x = 'n' then '\n'
  else if x = 'v' then '\x0b'
  else if x = 'f' then '\x0c'
  else if x = 'r' then '\r'
  else x

/-- The text between the delimiters read back: each backslash pair becomes the
character it stands for, every other character is kept. -/
def unescapeBody : List Char → List Char
  | [] => []
  | c :: rest =>
    if c = '\\' then
      match rest with
      | [] => [c]
      | x :: rest2 => unescapeLetter x :: unescapeBody rest2
    else c :: unescapeBody rest

/-- The unescape function: strip the two delimiting quotes, then read the pairs
back. -/
def unescape (text : List Char) : List Char := unescapeBody text.tail.dropLast

/-- Whether, reading the text from the left, every backslash begins a pair with
the character that follows it and no quote stands outside such a pair (so
that every quote is the second character of a pair). -/
def quotesEscaped : List Char → Bool
  | [] => true
  | c :: rest =>
    if c = '\\' then
      match rest with
      | [] => false
      | _ :: rest2 => quotesEscaped rest2
    else if c = '"' then false
    else quotesEscaped rest

/-! ## Reference definitions for the statements on the evaluator, continued -/

mutual
/-- Whether the tree is built only from IntegerLiteral, BinaryOperator and
IfThenElse nodes and Sequence nodes that are not empty. -/
def pushingShape : Node → Bool
  | .IntegerLiteral _ => true
  | .BinaryOperator _ left right => pushingShape left && pushingShape right
  | .Sequence exprs => !exprs.isEmpty && pushingShapeList exprs
  | .IfThenElse condition then_part else_part =>
    pushingShape condition && pushingShape then_part && pushingShape else_part
  | _ => false
/-- The same for every tree of a list. -/
def pushingShapeList : List Node → Bool
  | [] => true
  | expr :: rest => pushingShape expr && pushingShapeList rest
end

/-- The divisor of `a / b` is zero. -/
def zeroDivisor (_a b : Int) : Bool := decide (b = 0)

/-- The division `a / b` faults: the divisor is zero, or the quotient
`INT_MIN / -1` is not an `int`. -/
def faultyDivision (a b : Int) : Bool := decide (b = 0 ∨ (a = INT_MIN ∧ b = -1))

mutual
/-- Whether the traversal of the tree from `stack` arrives at a division whose
operands `a = stack[stack.size()-2]` and `b = stack[stack.size()-1]` are `bad`,
everything dispatched before that division having succeeded; a division in
the branch of an IfThenElse that is not chosen is not arrived at. -/
def divisionMeets (bad : Int → Int → Bool) : Node → Stack → Bool
  | .BinaryOperator op left right, stack =>
    divisionMeets bad left stack ||
      (match evalNode left stack with
       | .ok stack1 =>
         divisionMeets bad right stack1 ||
           (match evalNode right stack1 with
            | .ok stack2 =>
              decide (op = .o_divide) &&
                (match back stack2 2, back stack2 1 with
                 | some a, some b => bad a b
                 | _, _ => false)
            | .error _ => false)
       | .error _ => false)
  | .Sequence exprs, stack => divisionMeetsList bad exprs stack
  | .IfThenElse condition then_part else_part, stack =>
    divisionMeets bad condition stack ||
      (match evalNode condition stack with
       | .ok stack1 =>
         match ite_pop stack1 with
         | .ok (eval, stack2) =>
           if eval ≠ 0 then divisionMeets bad then_part stack2
           else divisionMeets bad else_part stack2
         | .error _ => false
       | .error _ => false)
  | _, _ => false
/-- The same for the children of a Sequence, from left to right. -/
def divisionMeetsList (bad : Int → Int → Bool) : List Node → Stack → Bool
  | [], _ => false
  | expr :: rest, stack =>
    divisionMeets bad expr stack ||
      (match evalNode expr stack with
       | .ok stack1 => divisionMeetsList bad rest stack1
       | .error _ => false)
end

/-! ## Lemmas on `int` arithmetic and on the stack -/

theorem toInt_of_isInt {x : Int} (h : isInt x = true) : toInt x = x := by
  simp [isInt, INT_MIN, INT_MAX] at h
  unfold toInt
  omega

theorem tdiv_natCast (m n : Nat) :
    Int.tdiv (m : Int) (n : Int) = truncQuotient (m : Int) (n : Int) := by
  unfold truncQuotient
  rcases Nat.eq_zero_or_pos m with hm | hm
  · subst hm; simp
  rcases Nat.eq_zero_or_pos n with hn | hn
  · subst hn; simp
  have h1 : Int.sign (m : Int) = 1 := Int.sign_eq_one_of_pos (by exact_mod_cast hm)
  have h2 : Int.sign (n : Int) = 1 := Int.sign_eq_one_of_pos (by exact_mod_cast hn)
  rw [h1, h2, Int.tdiv_eq_ediv (by omega) (by omega)]
  simp

theorem tdiv_eq_truncQuotient (a b : Int) : Int.tdiv a b = truncQuotient a b := by
  obtain ⟨m, rfl | rfl⟩ := Int.eq_nat_or_neg a <;> obtain ⟨n, rfl | rfl⟩ := Int.eq_nat_or_neg b
  · exact tdiv_natCast m n
  · simp [tdiv_natCast m n, truncQuotient]
  · simp [tdiv_natCast m n, truncQuotient]
  · simp [tdiv_natCast m n, truncQuotient]

theorem back_one (s : Stack) (v : Int) : back (s ++ [v]) 1 = some v := by
  simp [back]

theorem back_two_fst (s : Stack) (a b : Int) : back (s ++ [a, b]) 2 = some a := by
  have h : (s ++ [a, b])[s.length]? = some a := by
    rw [List.getElem?_append_right (Nat.le_refl _)]; simp
  simpa [back] using h

theorem back_two_snd (s : Stack) (a b : Int) : back (s ++ [a, b]) 1 = some b := by
  have h : (s ++ [a, b])[s.length + 1]? = some b := by
    rw [List.getElem?_append_right (Nat.le_succ _)]; simp
  simpa [back] using h

theorem pop_back_two (s : Stack) (a b : Int) : pop_back (pop_back (s ++ [a, b])) = s := by
  have h : s ++ [a, b] = (s ++ [a]) ++ [b] := by simp
  rw [h]; simp [pop_back]

theorem binop_apply_two (op : Operator) (s : Stack) (a b : Int) :
    binop_apply op (s ++ [a, b]) =
      match binop_eval op a b with
      | some v => .ok (s ++ [v])
      | none => .error .undefined := by
  unfold binop_apply
  rw [back_two_fst, back_two_snd, pop_back_two]
  simp [push_back]

theorem ite_pop_one (s : Stack) (v : Int) : ite_pop (s ++ [v]) = .ok (v, s) := by
  simp [ite_pop, back_one, pop_back]

theorem ite_pop_nil : ite_pop [] = .error .undefined := by
  simp [ite_pop, back]

theorem evalNode_literal (v : Int) (s : Stack) :
    evalNode (.IntegerLiteral v) s = .ok (s ++ [v]) := by
  simp [evalNode, push_back]

theorem evalNode_binop_literals (op : Operator) (a b : Int) (s : Stack) :
    evalNode (.BinaryOperator op (.IntegerLiteral a) (.IntegerLiteral b)) s =
      match binop_eval op a b with
      | some v => .ok (s ++ [v])
      | none => .error .undefined := by
  have h : (s ++ [a]) ++ [b] = s ++ [a, b] := by simp
  simp only [evalNode, push_back, h, binop_apply_two]

theorem binop_eval_denote (op : Operator) (a b : Int)
    (hz : ¬ (op = .o_divide ∧ b = 0)) (hr : isInt (denoteOp op a b) = true) :
    binop_eval op a b = some (denoteOp op a b) := by
  cases op
  case o_divide =>
    have hb : b ≠ 0 := fun h => hz ⟨rfl, h⟩
    have hm : ¬ (a = INT_MIN ∧ b = -1) := by
      rintro ⟨rfl, rfl⟩
      revert hr
      decide
    simp [binop_eval, denoteOp, hb, hm, tdiv_eq_truncQuotient]
  all_goals simp_all [binop_eval, denoteOp, toInt_of_isInt]

theorem evalNode_arith : ∀ (e : Node) (s : Stack), isArith e = true → noDivByZero e = true →
    inIntRange e = true → evalNode e s = .ok (s ++ [denote e])
  | .IntegerLiteral v, s, _, _, _ => by simp [evalNode, push_back, denote]
  | .BinaryOperator op l r, s, h1, h2, h3 => by
    simp only [isArith, noDivByZero, inIntRange, Bool.and_eq_true, Bool.not_eq_true',
      Bool.and_eq_false_imp, decide_eq_true_eq, decide_eq_false_iff_not] at h1 h2 h3
    have hl := evalNode_arith l s h1.1 h2.1.1 h3.1.1
    have hr := evalNode_arith r (s ++ [denote l]) h1.2 h2.1.2 h3.1.2
    have h : (s ++ [denote l]) ++ [denote r] = s ++ [denote l, denote r] := by simp
    have hz : ¬ (op = .o_divide ∧ denote r = 0) := fun hh => h2.2 hh.1 hh.2
    simp only [evalNode, hl, hr, h, binop_apply_two, binop_eval_denote op _ _ hz h3.2, denote]
  | .StringLiteral _, _, h, _, _ => by simp [isArith] at h
  | .Sequence _, _, h, _, _ => by simp [isArith] at h
  | .Let _ _, _, h, _, _ => by simp [isArith] at h
  | .Identifier _ _ _, _, h, _, _ => by simp [isArith] at h
  | .IfThenElse _ _ _, _, h, _, _ => by simp [isArith] at h
  | .VarDecl _ _ _ _ _, _, h, _, _ => by simp [isArith] at h
  | .FunDecl _ _ _ _ _, _, h, _, _ => by simp [isArith] at h
  | .FunCall _ _ _, _, h, _, _ => by simp [isArith] at h
  | .WhileLoop _ _, _, h, _, _ => by simp [isArith] at h
  | .ForLoop _ _ _ _ _, _, h, _, _ => by simp [isArith] at h
  | .Break _, _, h, _, _ => by simp [isArith] at h
  | .Assign _ _, _, h, _, _ => by simp [isArith] at h

theorem evalExprs_eq_foldlM (exprs : List Node) (s : Stack) :
    evalExprs exprs s = exprs.foldlM (fun stack expr => evalNode expr stack) s := by
  induction exprs generalizing s with
  | nil => simp [evalExprs, pure, Except.pure]
  | cons expr rest ih =>
    simp only [evalExprs, List.foldlM_cons, bind, Except.bind]
    cases evalNode expr s with
    | error f => rfl
    | ok s1 => exact ih s1

theorem evalExprs_append (xs ys : List Node) (s : Stack) :
    evalExprs (xs ++ ys) s =
      match evalExprs xs s with
      | .error f => .error f
      | .ok s1 => evalExprs ys s1 := by
  induction xs generalizing s with
  | nil => simp [evalExprs]
  | cons x rest ih =>
    simp only [List.cons_append, evalExprs]
    cases evalNode x s with
    | error f => rfl
    | ok s1 => exact ih s1

theorem evalExprs_singleton (e : Node) (s : Stack) : evalExprs [e] s = evalNode e s := by
  simp only [evalExprs]
  cases evalNode e s <;> rfl

/-! ## Lemmas on the handlers, one per path through each handler -/

theorem stack_cases (s : Stack) : s = [] ∨ ∃ (s1 : Stack) (v : Int), s = s1 ++ [v] := by
  rcases List.eq_nil_or_concat s with h | ⟨s1, v, h⟩
  · exact Or.inl h
  · exact Or.inr ⟨s1, v, by simpa using h⟩

theorem stack_two_decomp (s : Stack) (h : 2 ≤ s.length) :
    ∃ (base : Stack) (a b : Int), s = base ++ [a, b] := by
  rcases stack_cases s with rfl | ⟨s1, b, rfl⟩
  · simp at h
  rcases stack_cases s1 with rfl | ⟨base, a, rfl⟩
  · simp at h
  exact ⟨base, a, b, by simp⟩

theorem binop_left_error {l : Node} {s : Stack} {f : Failure} (op : Operator) (r : Node)
    (hl : evalNode l s = .error f) : evalNode (.BinaryOperator op l r) s = .error f := by
  simp [evalNode, hl]

theorem binop_right_error {l r : Node} {s s1 : Stack} {f : Failure} (op : Operator)
    (hl : evalNode l s = .ok s1) (hr : evalNode r s1 = .error f) :
    evalNode (.BinaryOperator op l r) s = .error f := by
  simp [evalNode, hl, hr]

theorem binop_children_ok {l r : Node} {s s1 s2 : Stack} (op : Operator)
    (hl : evalNode l s = .ok s1) (hr : evalNode r s1 = .ok s2) :
    evalNode (.BinaryOperator op l r) s = binop_apply op s2 := by
  simp [evalNode, hl, hr]

theorem ite_condition_error {c : Node} {s : Stack} {f : Failure} (t e : Node)
    (hc : evalNode c s = .error f) : evalNode (.IfThenElse c t e) s = .error f := by
  simp [evalNode, hc]

theorem ite_condition_empty {c : Node} {s : Stack} (t e : Node)
    (hc : evalNode c s = .ok []) : evalNode (.IfThenElse c t e) s = .error .undefined := by
  simp [evalNode, hc, ite_pop_nil]

theorem ite_condition_nonzero {c : Node} {s s1 : Stack} {v : Int} (t e : Node)
    (hc : evalNode c s = .ok (s1 ++ [v])) (hv : v ≠ 0) :
    evalNode (.IfThenElse c t e) s = evalNode t s1 := by
  simp [evalNode, hc, ite_pop_one, hv]

theorem ite_condition_zero {c : Node} {s s1 : Stack} (t e : Node)
    (hc : evalNode c s = .ok (s1 ++ [0])) :
    evalNode (.IfThenElse c t e) s = evalNode e s1 := by
  simp [evalNode, hc, ite_pop_one]

theorem exprs_head_error {expr : Node} {s : Stack} {f : Failure} (rest : List Node)
    (h : evalNode expr s = .error f) : evalExprs (expr :: rest) s = .error f := by
  simp [evalExprs, h]

theorem exprs_head_ok {expr : Node} {s s1 : Stack} (rest : List Node)
    (h : evalNode expr s = .ok s1) : evalExprs (expr :: rest) s = evalExprs rest s1 := by
  simp [evalExprs, h]

theorem binop_apply_short (op : Operator) (s : Stack) (h : s.length < 2) :
    binop_apply op s = .error (.error "Evaluate: error: stack error") := by
  simp [binop_apply, h]

theorem binop_apply_benign (op : Operator) (s : Stack) :
    (∃ s', binop_apply op s = .ok s') ∨
    binop_apply op s = .error (.error "Evaluate: error: stack error") ∨
    binop_apply op s = .error .undefined := by
  by_cases h : s.length < 2
  · exact Or.inr (Or.inl (binop_apply_short op s h))
  · obtain ⟨base, a, b, rfl⟩ := stack_two_decomp s (by omega)
    rw [binop_apply_two]
    cases binop_eval op a b with
    | none => exact Or.inr (Or.inr rfl)
    | some v => exact Or.inl ⟨_, rfl⟩

theorem binop_apply_ne_funcall (op : Operator) (s : Stack) :
    binop_apply op s ≠ .error (.error "Evaluate: unsupported: FunCall") := by
  rcases binop_apply_benign op s with ⟨s', h⟩ | h | h <;> rw [h]
  · simp
  · decide
  · simp

mutual
theorem supportedOnly_benign : ∀ (t : Node) (s : Stack), supportedOnly t = true →
    (∃ s', evalNode t s = .ok s') ∨
    evalNode t s = .error (.error "Evaluate: error: stack error") ∨
    evalNode t s = .error .undefined
  | .IntegerLiteral v, s, _ => Or.inl ⟨_, evalNode_literal v s⟩
  | .BinaryOperator op l r, s, h => by
    simp only [supportedOnly, Bool.and_eq_true] at h
    rcases supportedOnly_benign l s h.1 with ⟨s1, h1⟩ | h1 | h1
    · rcases supportedOnly_benign r s1 h.2 with ⟨s2, h2⟩ | h2 | h2
      · rw [binop_children_ok op h1 h2]; exact binop_apply_benign op s2
      · rw [binop_right_error op h1 h2]; exact Or.inr (Or.inl rfl)
      · rw [binop_right_error op h1 h2]; exact Or.inr (Or.inr rfl)
    · rw [binop_left_error op r h1]; exact Or.inr (Or.inl rfl)
    · rw [binop_left_error op r h1]; exact Or.inr (Or.inr rfl)
  | .Sequence exprs, s, h => by
    simp only [supportedOnly] at h
    simp only [evalNode]
    exact supportedOnlyList_benign exprs s h
  | .IfThenElse c t e, s, h => by
    simp only [supportedOnly, Bool.and_eq_true] at h
    rcases supportedOnly_benign c s h.1.1 with ⟨s1, h1⟩ | h1 | h1
    · rcases stack_cases s1 with rfl | ⟨s2, v, rfl⟩
      · rw [ite_condition_empty t e h1]; exact Or.inr (Or.inr rfl)
      · by_cases hv : v = 0
        · subst hv
          rw [ite_condition_zero t e h1]
          exact supportedOnly_benign e s2 h.2
        · rw [ite_condition_nonzero t e h1 hv]
          exact supportedOnly_benign t s2 h.1.2
    · rw [ite_condition_error t e h1]; exact Or.inr (Or.inl rfl)
    · rw [ite_condition_error t e h1]; exact Or.inr (Or.inr rfl)
  | .StringLiteral _, _, h => by simp [supportedOnly] at h
  | .Let _ _, _, h => by simp [supportedOnly] at h
  | .Identifier _ _ _, _, h => by simp [supportedOnly] at h
  | .VarDecl _ _ _ _ _, _, h => by simp [supportedOnly] at h
  | .FunDecl _ _ _ _ _, _, h => by simp [supportedOnly] at h
  | .FunCall _ _ _, _, h => by simp [supportedOnly] at h
  | .WhileLoop _ _, _, h => by simp [supportedOnly] at h
  | .ForLoop _ _ _ _ _, _, h => by simp [supportedOnly] at h
  | .Break _, _, h => by simp [supportedOnly] at h
  | .Assign _ _, _, h => by simp [supportedOnly] at h
theorem supportedOnlyList_benign : ∀ (exprs : List Node) (s : Stack),
    supportedOnlyList exprs = true →
    (∃ s', evalExprs exprs s = .ok s') ∨
    evalExprs exprs s = .error (.error "Evaluate: error: stack error") ∨
    evalExprs exprs s = .error .undefined
  | [], s, _ => Or.inl ⟨s, by simp [evalExprs]⟩
  | expr :: rest, s, h => by
    simp only [supportedOnlyList, Bool.and_eq_true] at h
    rcases supportedOnly_benign expr s h.1 with ⟨s1, h1⟩ | h1 | h1
    · rw [exprs_head_ok rest h1]; exact supportedOnlyList_benign rest s1 h.2
    · rw [exprs_head_error rest h1]; exact Or.inr (Or.inl rfl)
    · rw [exprs_head_error rest h1]; exact Or.inr (Or.inr rfl)
end

theorem binop_eval_some (op : Operator) (a b : Int)
    (h : ¬ (op = .o_divide ∧ (b = 0 ∨ (a = INT_MIN ∧ b = -1)))) :
    ∃ v : Int, binop_eval op a b = some v := by
  cases op
  case o_divide =>
    have hf : ¬ (b = 0 ∨ (a = INT_MIN ∧ b = -1)) := fun hh => h ⟨rfl, hh⟩
    exact ⟨Int.tdiv a b, by simp only [binop_eval, if_neg hf]⟩
  all_goals exact ⟨_, rfl⟩

theorem not_reaches_of_ok {t : Node} {s s1 : Stack}
    (ih : evalNode t s = .error (.error "Evaluate: unsupported: FunCall") ↔
      reachesFunCall t s = true)
    (h : evalNode t s = .ok s1) : reachesFunCall t s = false := by
  rw [h] at ih
  cases hr : reachesFunCall t s with
  | false => rfl
  | true => exact absurd (ih.2 hr) (by simp)

mutual
theorem funcall_failure_iff : ∀ (t : Node) (s : Stack),
    evalNode t s = .error (.error "Evaluate: unsupported: FunCall") ↔
      reachesFunCall t s = true
  | .FunCall _ _ _, s => by simp [evalNode, reachesFunCall]
  | .IntegerLiteral v, s => by simp [evalNode, reachesFunCall]
  | .BinaryOperator op l r, s => by
    have ihl := funcall_failure_iff l s
    cases hl : evalNode l s with
    | error f =>
      rw [binop_left_error op r hl]
      rw [hl] at ihl
      simp [reachesFunCall, hl, ihl]
    | ok s1 =>
      have ihr := funcall_failure_iff r s1
      have hnl := not_reaches_of_ok ihl hl
      cases hr : evalNode r s1 with
      | error f =>
        rw [binop_right_error op hl hr]
        rw [hr] at ihr
        simp [reachesFunCall, hl, hnl, ihr]
      | ok s2 =>
        rw [binop_children_ok op hl hr]
        have hnr := not_reaches_of_ok ihr hr
        simp [reachesFunCall, hl, hnl, hnr, binop_apply_ne_funcall]
  | .Sequence exprs, s => by
    simp only [evalNode, reachesFunCall]
    exact funcall_failure_list_iff exprs s
  | .IfThenElse c t e, s => by
    have ihc := funcall_failure_iff c s
    cases hc : evalNode c s with
    | error f =>
      rw [ite_condition_error t e hc]
      rw [hc] at ihc
      simp [reachesFunCall, hc, ihc]
    | ok s1 =>
      have hnc := not_reaches_of_ok ihc hc
      rcases stack_cases s1 with rfl | ⟨s2, v, rfl⟩
      · rw [ite_condition_empty t e hc]
        simp [reachesFunCall, hc, hnc, ite_pop_nil]
      · by_cases hv : v = 0
        · subst hv
          rw [ite_condition_zero t e hc]
          simp [reachesFunCall, hc, hnc, ite_pop_one, funcall_failure_iff e s2]
        · rw [ite_condition_nonzero t e hc hv]
          simp [reachesFunCall, hc, hnc, ite_pop_one, hv, funcall_failure_iff t s2]
  | .StringLiteral _, _ => by simp [evalNode, reachesFunCall]
  | .Let _ _, _ => by simp [evalNode, reachesFunCall]
  | .Identifier _ _ _, _ => by simp [evalNode, reachesFunCall]
  | .VarDecl _ _ _ _ _, _ => by simp [evalNode, reachesFunCall]
  | .FunDecl _ _ _ _ _, _ => by simp [evalNode, reachesFunCall]
  | .WhileLoop _ _, _ => by simp [evalNode, reachesFunCall]
  | .ForLoop _ _ _ _ _, _ => by simp [evalNode, reachesFunCall]
  | .Break _, _ => by simp [evalNode, reachesFunCall]
  | .Assign _ _, _ => by simp [evalNode, reachesFunCall]
theorem funcall_failure_list_iff : ∀ (exprs : List Node) (s : Stack),
    evalExprs exprs s = .error (.error "Evaluate: unsupported: FunCall") ↔
      reachesFunCallList exprs s = true
  | [], s => by simp [evalExprs, reachesFunCallList]
  | expr :: rest, s => by
    have ih := funcall_failure_iff expr s
    cases h : evalNode expr s with
    | error f =>
      rw [exprs_head_error rest h]
      rw [h] at ih
      simp [reachesFunCallList, h, ih]
    | ok s1 =>
      have hn := not_reaches_of_ok ih h
      rw [exprs_head_ok rest h]
      simp [reachesFunCallList, h, hn, funcall_failure_list_iff rest s1]
end

mutual
theorem oneValueShape_pushes_one : ∀ (t : Node) (s s' : Stack), oneValueShape t = true →
    evalNode t s = .ok s' → ∃ v : Int, s' = s ++ [v]
  | .IntegerLiteral v, s, s', _, h => by
    rw [evalNode_literal] at h
    exact ⟨v, by cases h; rfl⟩
  | .BinaryOperator op l r, s, s', hs, h => by
    simp only [oneValueShape, Bool.and_eq_true] at hs
    cases hl : evalNode l s with
    | error f => rw [binop_left_error op r hl] at h; cases h
    | ok s1 =>
      obtain ⟨a, rfl⟩ := oneValueShape_pushes_one l s s1 hs.1 hl
      cases hr : evalNode r (s ++ [a]) with
      | error f => rw [binop_right_error op hl hr] at h; cases h
      | ok s2 =>
        obtain ⟨b, rfl⟩ := oneValueShape_pushes_one r (s ++ [a]) s2 hs.2 hr
        have h2 : (s ++ [a]) ++ [b] = s ++ [a, b] := by simp
        rw [binop_children_ok op hl hr, h2, binop_apply_two] at h
        cases hv : binop_eval op a b with
        | none => rw [hv] at h; cases h
        | some v => rw [hv] at h; exact ⟨v, by cases h; rfl⟩
  | .Sequence exprs, s, s', hs, h => by
    simp only [oneValueShape] at hs
    simp only [evalNode] at h
    exact oneValueShapeSingle_pushes_one exprs s s' hs h
  | .IfThenElse c t e, s, s', hs, h => by
    simp only [oneValueShape, Bool.and_eq_true] at hs
    cases hc : evalNode c s with
    | error f => rw [ite_condition_error t e hc] at h; cases h
    | ok s1 =>
      obtain ⟨v, rfl⟩ := oneValueShape_pushes_one c s s1 hs.1.1 hc
      by_cases hv : v = 0
      · subst hv
        rw [ite_condition_zero t e hc] at h
        exact oneValueShape_pushes_one e s s' hs.2 h
      · rw [ite_condition_nonzero t e hc hv] at h
        exact oneValueShape_pushes_one t s s' hs.1.2 h
  | .StringLiteral _, _, _, hs, _ => by simp [oneValueShape] at hs
  | .Let _ _, _, _, hs, _ => by simp [oneValueShape] at hs
  | .Identifier _ _ _, _, _, hs, _ => by simp [oneValueShape] at hs
  | .VarDecl _ _ _ _ _, _, _, hs, _ => by simp [oneValueShape] at hs
  | .FunDecl _ _ _ _ _, _, _, hs, _ => by simp [oneValueShape] at hs
  | .FunCall _ _ _, _, _, hs, _ => by simp [oneValueShape] at hs
  | .WhileLoop _ _, _, _, hs, _ => by simp [oneValueShape] at hs
  | .ForLoop _ _ _ _ _, _, _, hs, _ => by simp [oneValueShape] at hs
  | .Break _, _, _, hs, _ => by simp [oneValueShape] at hs
  | .Assign _ _, _, _, hs, _ => by simp [oneValueShape] at hs
theorem oneValueShapeSingle_pushes_one : ∀ (exprs : List Node) (s s' : Stack),
    oneValueShapeSingle exprs = true → evalExprs exprs s = .ok s' → ∃ v : Int, s' = s ++ [v]
  | [], _, _, hs, _ => by simp [oneValueShapeSingle] at hs
  | [expr], s, s', hs, h => by
    simp only [oneValueShapeSingle] at hs
    rw [evalExprs_singleton] at h
    exact oneValueShape_pushes_one expr s s' hs h
  | _ :: _ :: _, _, _, hs, _ => by simp [oneValueShapeSingle] at hs
end

/-! ## The evaluator: arithmetic, comparisons, conditionals, sequences -/

open Node Operator

/-- C1, the claim as stated fails: `2147483647 + 1` is built from two literals and
an addition and has no division, its usual denotation is 2147483648, and the
evaluator leaves the `int` -2147483648. -/
theorem C1_overflow_counterexample :
    isArith (BinaryOperator o_plus (IntegerLiteral 2147483647) (IntegerLiteral 1)) = true ∧
    noDivByZero (BinaryOperator o_plus (IntegerLiteral 2147483647) (IntegerLiteral 1)) = true ∧
    isInt 2147483647 = true ∧ isInt 1 = true ∧
    denote (BinaryOperator o_plus (IntegerLiteral 2147483647) (IntegerLiteral 1)) = 2147483648 ∧
    evalNode (BinaryOperator o_plus (IntegerLiteral 2147483647) (IntegerLiteral 1)) []
      = .ok [-2147483648] ∧
    evalNode (BinaryOperator o_plus (IntegerLiteral 2147483647) (IntegerLiteral 1)) []
      ≠ .ok [denote (BinaryOperator o_plus (IntegerLiteral 2147483647) (IntegerLiteral 1))] := by
  decide

/-- C1 (amended): for every expression built only from IntegerLiteral and
BinaryOperator nodes in which no division has a right operand denoting 0 and in
which every literal and every intermediate result is an `int`, the evaluator
started on the empty stack succeeds and leaves exactly one value, the usual
denotation of the expression; the tree for `(3 + 4) * 2` yields 14. -/
theorem C1_arith_value (e : Node) (harith : isArith e = true)
    (hdiv : noDivByZero e = true) (hrange : inIntRange e = true) :
    evalNode e [] = .ok [denote e] ∧
    evalNode (BinaryOperator o_times
      (BinaryOperator o_plus (IntegerLiteral 3) (IntegerLiteral 4)) (IntegerLiteral 2)) []
      = .ok [14] := by
  refine ⟨?_, by decide⟩
  simpa using evalNode_arith e [] harith hdiv hrange

/-- C1, witness: the hypotheses hold of `(3 + 4) * 2`, whose denotation is 14. -/
theorem C1_arith_value_witness :
    denote (BinaryOperator o_times
      (BinaryOperator o_plus (IntegerLiteral 3) (IntegerLiteral 4)) (IntegerLiteral 2)) = 14 ∧
    evalNode (BinaryOperator o_times
      (BinaryOperator o_plus (IntegerLiteral 3) (IntegerLiteral 4)) (IntegerLiteral 2)) []
      = .ok [denote (BinaryOperator o_times
          (BinaryOperator o_plus (IntegerLiteral 3) (IntegerLiteral 4)) (IntegerLiteral 2))] :=
  ⟨by decide, (C1_arith_value _ (by decide) (by decide) (by decide)).1⟩

/-- C2, the claim as stated fails: the divisor -1 is not 0, the quotient of
-2147483648 by -1 truncated toward zero is 2147483648, and the division does
not yield it (the quotient is not an `int`; the division faults). -/
theorem C2_divide_int_min_by_minus_one :
    isInt (-2147483648) = true ∧ isInt (-1) = true ∧ (-1 : Int) ≠ 0 ∧
    truncQuotient (-2147483648) (-1) = 2147483648 ∧
    evalNode (BinaryOperator o_divide (IntegerLiteral (-2147483648)) (IntegerLiteral (-1))) []
      = .error .undefined ∧
    evalNode (BinaryOperator o_divide (IntegerLiteral (-2147483648)) (IntegerLiteral (-1))) []
      ≠ .ok [truncQuotient (-2147483648) (-1)] := by
  decide

/-- C2 (amended): for all integers a and b with b ≠ 0, other than the pair
a = INT_MIN, b = -1, evaluating `a / b` from the empty stack yields the quotient
of a by b truncated toward zero, a (the left child) being the dividend and b
(the right child) the divisor; `10 / 3` yields 3 and `-7 / 2` yields -3. -/
theorem C2_divide_truncates (a b : Int) (hb : b ≠ 0) (hq : ¬ (a = INT_MIN ∧ b = -1)) :
    evalNode (BinaryOperator o_divide (IntegerLiteral a) (IntegerLiteral b)) []
      = .ok [truncQuotient a b] ∧
    evalNode (BinaryOperator o_divide (IntegerLiteral 10) (IntegerLiteral 3)) [] = .ok [3] ∧
    evalNode (BinaryOperator o_divide (IntegerLiteral (-7)) (IntegerLiteral 2)) [] = .ok [-3] := by
  refine ⟨?_, by decide, by decide⟩
  rw [evalNode_binop_literals]
  simp [binop_eval, hb, hq, tdiv_eq_truncQuotient]

/-- C2, witness: `-7 / 2`, whose truncated quotient is -3 and not -4. -/
theorem C2_divide_truncates_witness :
    truncQuotient (-7) 2 = -3 ∧
    evalNode (BinaryOperator o_divide (IntegerLiteral (-7)) (IntegerLiteral 2)) []
      = .ok [truncQuotient (-7) 2] :=
  ⟨by decide, (C2_divide_truncates (-7) 2 (by decide) (by decide)).1⟩

/-- C3: for each of the six comparison operators and all integers a and b,
evaluating the operator over the literals a (left) and b (right) pushes 1 when
the relation holds between a and b and 0 otherwise, and nothing else; `5 != 5`
yields 0. -/
theorem C3_comparisons (a b : Int) (s : Stack) :
    evalNode (BinaryOperator o_eq (IntegerLiteral a) (IntegerLiteral b)) s
      = .ok (s ++ [if a = b then 1 else 0]) ∧
    evalNode (BinaryOperator o_neq (IntegerLiteral a) (IntegerLiteral b)) s
      = .ok (s ++ [if a ≠ b then 1 else 0]) ∧
    evalNode (BinaryOperator o_lt (IntegerLiteral a) (IntegerLiteral b)) s
      = .ok (s ++ [if a < b then 1 else 0]) ∧
    evalNode (BinaryOperator o_le (IntegerLiteral a) (IntegerLiteral b)) s
      = .ok (s ++ [if a ≤ b then 1 else 0]) ∧
    evalNode (BinaryOperator o_gt (IntegerLiteral a) (IntegerLiteral b)) s
      = .ok (s ++ [if a > b then 1 else 0]) ∧
    evalNode (BinaryOperator o_ge (IntegerLiteral a) (IntegerLiteral b)) s
      = .ok (s ++ [if a ≥ b then 1 else 0]) ∧
    evalNode (BinaryOperator o_neq (IntegerLiteral 5) (IntegerLiteral 5)) [] = .ok [0] := by
  refine ⟨?_, ?_, ?_, ?_, ?_, ?_, by decide⟩ <;>
    simp only [evalNode_binop_literals, binop_eval]

/-- C4: when the condition of an IfThenElse evaluates successfully and leaves the
value v on top of the stack s1, the handler pops v and what it yields is, for
v ≠ 0, what the then-branch yields on s1, whatever the else-branch is, and for
v = 0 what the else-branch yields on s1, whatever the then-branch is;
`if 1 then 7 else X` yields 7 and `if 0 then X else 99` yields 99 for every
node X. -/
theorem C4_ite_chosen_branch (c t e : Node) (s s1 : Stack) (v : Int)
    (hc : evalNode c s = .ok (s1 ++ [v])) :
    (v ≠ 0 → ∀ e' : Node, evalNode (IfThenElse c t e') s = evalNode t s1) ∧
    (v = 0 → ∀ t' : Node, evalNode (IfThenElse c t' e) s = evalNode e s1) ∧
    (∀ X : Node, evalNode (IfThenElse (IntegerLiteral 1) (IntegerLiteral 7) X) [] = .ok [7]) ∧
    (∀ X : Node, evalNode (IfThenElse (IntegerLiteral 0) X (IntegerLiteral 99)) [] = .ok [99]) := by
  refine ⟨?_, ?_, ?_, ?_⟩
  · intro hv e'
    simp [evalNode, hc, ite_pop_one, hv]
  · intro hv t'
    simp [evalNode, hc, ite_pop_one, hv]
  · intro X
    have h := ite_pop_one [] 1
    simp only [List.nil_append] at h
    simp [evalNode, push_back, h]
  · intro X
    have h := ite_pop_one [] 0
    simp only [List.nil_append] at h
    simp [evalNode, push_back, h]

/-- C4, witness: the condition `1` leaves 1 on top of the empty stack, and
`if 1 then 7 else f()` yields what `7` yields, although `f()` is a FunCall. -/
theorem C4_ite_chosen_branch_witness :
    evalNode (IntegerLiteral 1) [] = .ok ([] ++ [1]) ∧
    evalNode (IfThenElse (IntegerLiteral 1) (IntegerLiteral 7) (FunCall "f" none [])) []
      = evalNode (IntegerLiteral 7) [] :=
  ⟨by decide,
    (C4_ite_chosen_branch (IntegerLiteral 1) (IntegerLiteral 7) (IntegerLiteral 99) [] [] 1
      (by decide)).1 (by decide) (FunCall "f" none [])⟩

/-- C5: a Sequence runs its children from left to right, each on the stack left
by the one before, and does nothing else: when the children before the last
one leave s1 and the last child leaves s2 from s1, the Sequence leaves exactly
s2, so its top is the top left by the last child; `(1; 2; 3)` from the empty
stack leaves [1, 2, 3], whose top is 3. -/
theorem C5_sequence_in_order (exprs : List Node) (last : Node) (s s1 s2 : Stack)
    (hinit : evalNode (Sequence exprs) s = .ok s1) (hlast : evalNode last s1 = .ok s2) :
    evalNode (Sequence (exprs ++ [last])) s
      = (exprs ++ [last]).foldlM (fun stack expr => evalNode expr stack) s ∧
    evalNode (Sequence (exprs ++ [last])) s = .ok s2 ∧
    evalNode (Sequence [IntegerLiteral 1, IntegerLiteral 2, IntegerLiteral 3]) []
      = .ok [1, 2, 3] ∧
    back [1, 2, 3] 1 = some 3 := by
  refine ⟨?_, ?_, by decide, by decide⟩
  · simp only [evalNode, evalExprs_eq_foldlM]
  · simp only [evalNode] at hinit ⊢
    rw [evalExprs_append, hinit]
    simp only [evalExprs_singleton, hlast]

/-- C5, witness: in `(1; 2; 3)` the children `1; 2` leave [1, 2] and the last
child `3` leaves [1, 2, 3] from there. -/
theorem C5_sequence_in_order_witness :
    evalNode (Sequence [IntegerLiteral 1, IntegerLiteral 2]) [] = .ok [1, 2] ∧
    evalNode (IntegerLiteral 3) [1, 2] = .ok [1, 2, 3] ∧
    evalNode (Sequence ([IntegerLiteral 1, IntegerLiteral 2] ++ [IntegerLiteral 3])) []
      = .ok [1, 2, 3] :=
  ⟨by decide, by decide,
    (C5_sequence_in_order [IntegerLiteral 1, IntegerLiteral 2] (IntegerLiteral 3) [] [1, 2]
      [1, 2, 3] (by decide) (by decide)).2.1⟩

/-! ## The evaluator: failures -/

/-- C6: for each of the ten kinds StringLiteral, Let, Identifier, VarDecl, FunDecl,
FunCall, WhileLoop, ForLoop, Break and Assign, evaluating a node of that kind
fails with the unsupported-construct failure whose message names that kind,
for every starting stack and whatever the fields and children of the node are;
and a tree all of whose nodes are of the kinds IntegerLiteral, BinaryOperator,
Sequence and IfThenElse never ends in such a failure: it succeeds, or ends in
the stack error, or in undefined behaviour. -/
theorem C6_unsupported_kinds (stack : Stack) :
    (∀ value, evalNode (StringLiteral value) stack
      = .error (.error "Evaluate: unsupported: StringLiteral")) ∧
    (∀ decls sequence, evalNode (Let decls sequence) stack
      = .error (.error "Evaluate: unsupported: Let")) ∧
    (∀ name decl depth, evalNode (Identifier name decl depth) stack
      = .error (.error "Evaluate: unsupported: Identifier")) ∧
    (∀ name type_name expr escapes type, evalNode (VarDecl name type_name expr escapes type) stack
      = .error (.error "Evaluate: unsupported: VarDecl")) ∧
    (∀ name external_name params type_name expr,
      evalNode (FunDecl name external_name params type_name expr) stack
      = .error (.error "Evaluate: unsupported: FunDecl")) ∧
    (∀ func_name decl args, evalNode (FunCall func_name decl args) stack
      = .error (.error "Evaluate: unsupported: FunCall")) ∧
    (∀ condition body, evalNode (WhileLoop condition body) stack
      = .error (.error "Evaluate: unsupported: WhileLoop")) ∧
    (∀ var_name var_escapes var_expr high body,
      evalNode (ForLoop var_name var_escapes var_expr high body) stack
      = .error (.error "Evaluate: unsupported: ForLoop")) ∧
    (∀ loop, evalNode (Break loop) stack = .error (.error "Evaluate: unsupported: Break")) ∧
    (∀ lhs rhs, evalNode (Assign lhs rhs) stack
      = .error (.error "Evaluate: unsupported: Assign")) ∧
    (∀ t : Node, supportedOnly t = true →
      (∃ stack', evalNode t stack = .ok stack') ∨
      evalNode t stack = .error (.error "Evaluate: error: stack error") ∨
      evalNode t stack = .error .undefined) := by
  refine ⟨?_, ?_, ?_, ?_, ?_, ?_, ?_, ?_, ?_, ?_, ?_⟩
  · intro value; simp only [evalNode]
  · intro decls sequence; simp only [evalNode]
  · intro name decl depth; simp only [evalNode]
  · intro name type_name expr escapes type; simp only [evalNode]
  · intro name external_name params type_name expr; simp only [evalNode]
  · intro func_name decl args; simp only [evalNode]
  · intro condition body; simp only [evalNode]
  · intro var_name var_escapes var_expr high body; simp only [evalNode]
  · intro loop; simp only [evalNode]
  · intro lhs rhs; simp only [evalNode]
  · intro t ht; exact supportedOnly_benign t stack ht

/-- C6, witness: the tree `if 1 then (2 + 3) else ()` has only nodes of the four
supported kinds, and a WhileLoop over supported children fails all the same. -/
theorem C6_unsupported_kinds_witness :
    supportedOnly (IfThenElse (IntegerLiteral 1)
      (BinaryOperator o_plus (IntegerLiteral 2) (IntegerLiteral 3)) (Sequence [])) = true ∧
    ((∃ stack', evalNode (IfThenElse (IntegerLiteral 1)
        (BinaryOperator o_plus (IntegerLiteral 2) (IntegerLiteral 3)) (Sequence [])) [] = .ok stack') ∨
      evalNode (IfThenElse (IntegerLiteral 1)
        (BinaryOperator o_plus (IntegerLiteral 2) (IntegerLiteral 3)) (Sequence [])) []
        = .error (.error "Evaluate: error: stack error") ∨
      evalNode (IfThenElse (IntegerLiteral 1)
        (BinaryOperator o_plus (IntegerLiteral 2) (IntegerLiteral 3)) (Sequence [])) []
        = .error .undefined) ∧
    evalNode (WhileLoop (IntegerLiteral 1) (IntegerLiteral 2)) []
      = .error (.error "Evaluate: unsupported: WhileLoop") :=
  ⟨by decide,
    (C6_unsupported_kinds []).2.2.2.2.2.2.2.2.2.2 _ (by decide),
    (C6_unsupported_kinds []).2.2.2.2.2.2.1 _ _⟩

/-- C7, the claim as stated fails: `if 1 then 7 else f()` contains a FunCall and
evaluates to 7; `("a"; f())` contains a FunCall and its failure names
StringLiteral. -/
theorem C7_funcall_not_reached :
    containsFunCall (IfThenElse (IntegerLiteral 1) (IntegerLiteral 7) (FunCall "f" none []))
      = true ∧
    evalNode (IfThenElse (IntegerLiteral 1) (IntegerLiteral 7) (FunCall "f" none [])) []
      = .ok [7] ∧
    containsFunCall (Sequence [StringLiteral "a", FunCall "f" none []]) = true ∧
    evalNode (Sequence [StringLiteral "a", FunCall "f" none []]) []
      = .error (.error "Evaluate: unsupported: StringLiteral") := by
  decide

/-- C7 (amended): evaluating a tree fails with the failure that names FunCall
exactly when the traversal arrives at a FunCall node (every node dispatched
before it succeeded, and it is neither in the branch of an IfThenElse that is
not chosen nor below a node of another unsupported kind); the nodes after the
FunCall are not evaluated: a Sequence whose children before a FunCall succeed
fails naming FunCall whatever the later siblings are, and so does a
BinaryOperator whose left child is a FunCall, whatever the right child is. -/
theorem C7_funcall_failure (t : Node) (s : Stack) :
    (evalNode t s = .error (.error "Evaluate: unsupported: FunCall")
      ↔ reachesFunCall t s = true) ∧
    (∀ (before after : List Node) (func_name : String) (decl : Option String)
        (args : List Node) (s1 : Stack),
      evalNode (Sequence before) s = .ok s1 →
      evalNode (Sequence (before ++ FunCall func_name decl args :: after)) s
        = .error (.error "Evaluate: unsupported: FunCall")) ∧
    (∀ (op : Operator) (right : Node) (func_name : String) (decl : Option String)
        (args : List Node),
      evalNode (BinaryOperator op (FunCall func_name decl args) right) s
        = .error (.error "Evaluate: unsupported: FunCall")) := by
  refine ⟨funcall_failure_iff t s, ?_, ?_⟩
  · intro before after func_name decl args s1 h
    simp only [evalNode] at h ⊢
    rw [evalExprs_append, h]
    exact exprs_head_error after (by simp only [evalNode])
  · intro op right func_name decl args
    exact binop_left_error op right (by simp only [evalNode])

/-- C7, witness: in `(1; f(); "a")` the traversal arrives at the FunCall, and the
evaluation fails naming FunCall, the StringLiteral after it not being
evaluated. -/
theorem C7_funcall_failure_witness :
    reachesFunCall (Sequence [IntegerLiteral 1, FunCall "f" none [], StringLiteral "a"]) []
      = true ∧
    evalNode (Sequence [IntegerLiteral 1, FunCall "f" none [], StringLiteral "a"]) []
      = .error (.error "Evaluate: unsupported: FunCall") ∧
    evalNode (Sequence ([IntegerLiteral 1] ++ FunCall "f" none [] :: [StringLiteral "a"])) []
      = .error (.error "Evaluate: unsupported: FunCall") :=
  ⟨by decide,
    (C7_funcall_failure (Sequence [IntegerLiteral 1, FunCall "f" none [], StringLiteral "a"])
      []).1.2 (by decide),
    (C7_funcall_failure (IntegerLiteral 0) []).2.1 [IntegerLiteral 1] [StringLiteral "a"] "f" none
      [] [1] (by decide)⟩

/-- C8, the claim as stated fails: `(1; 2; 3)` succeeds from the empty stack and
leaves three values, and the empty Sequence succeeds and leaves none. -/
theorem C8_sequence_leaves_other_counts :
    evalNode (Sequence [IntegerLiteral 1, IntegerLiteral 2, IntegerLiteral 3]) []
      = .ok [1, 2, 3] ∧
    ([1, 2, 3] : Stack).length ≠ 1 ∧
    evalNode (Sequence []) [] = .ok [] ∧
    ([] : Stack).length ≠ 1 := by
  decide

/-- C8 (amended): whenever the evaluation, started on the empty stack, of a tree
built only from IntegerLiteral, BinaryOperator and IfThenElse nodes and
Sequence nodes of exactly one element succeeds, exactly one value remains on
the operand stack. -/
theorem C8_one_value_remains (t : Node) (stack' : Stack) (hshape : oneValueShape t = true)
    (hok : evalNode t [] = .ok stack') : stack'.length = 1 := by
  obtain ⟨v, rfl⟩ := oneValueShape_pushes_one t [] stack' hshape hok
  simp

/-- C8, witness: `if (1 < 2) then ((3 + 4) * 2) else 0`, the product being the
element of a one-element Sequence, leaves the one value 14. -/
theorem C8_one_value_remains_witness :
    evalNode (IfThenElse (BinaryOperator o_lt (IntegerLiteral 1) (IntegerLiteral 2))
      (Sequence [BinaryOperator o_times
        (BinaryOperator o_plus (IntegerLiteral 3) (IntegerLiteral 4)) (IntegerLiteral 2)])
      (IntegerLiteral 0)) [] = .ok [14] ∧
    ([14] : Stack).length = 1 :=
  ⟨by decide, C8_one_value_remains
    (IfThenElse (BinaryOperator o_lt (IntegerLiteral 1) (IntegerLiteral 2))
      (Sequence [BinaryOperator o_times
        (BinaryOperator o_plus (IntegerLiteral 3) (IntegerLiteral 4)) (IntegerLiteral 2)])
      (IntegerLiteral 0)) [14] (by decide) (by decide)⟩

/-- C9, what the code does: when the condition of an IfThenElse leaves the stack
empty, as the empty Sequence does from the empty stack, the handler has no
guard and reads `stack[stack.size()-1]` outside the vector, which is undefined
behaviour and not the failure of a `utils::error` call; the BinaryOperator
handler, on a stack that is too short, does have the guard and fails with the
stack error. -/
theorem C9_ite_reads_empty_stack :
    evalNode (Sequence []) [] = .ok [] ∧
    back [] 1 = none ∧
    evalNode (IfThenElse (Sequence []) (IntegerLiteral 7) (IntegerLiteral 99)) []
      = .error .undefined ∧
    (∀ msg : String,
      evalNode (IfThenElse (Sequence []) (IntegerLiteral 7) (IntegerLiteral 99)) []
        ≠ .error (.error msg)) ∧
    evalNode (BinaryOperator o_plus (Sequence []) (Sequence [])) []
      = .error (.error "Evaluate: error: stack error") := by
  refine ⟨by decide, by decide, by decide, ?_, by decide⟩
  intro msg
  rw [ite_condition_empty _ _ (by decide)]
  simp

/-- C10, the claim as stated fails: in `1 / 0` both children succeed and the stack
holds the two entries 1 and 0 after the right child, yet the handler leaves
no stack: the division faults. -/
theorem C10_division_fault_counterexample :
    evalNode (IntegerLiteral 1) [] = .ok [1] ∧
    evalNode (IntegerLiteral 0) [1] = .ok [1, 0] ∧
    ¬ (([1, 0] : Stack).length < 2) ∧
    evalNode (BinaryOperator o_divide (IntegerLiteral 1) (IntegerLiteral 0)) []
      = .error .undefined ∧
    (∀ stack' : Stack,
      evalNode (BinaryOperator o_divide (IntegerLiteral 1) (IntegerLiteral 0)) []
        ≠ .ok stack') := by
  refine ⟨by decide, by decide, by decide, by decide, ?_⟩
  intro stack'
  have h : evalNode (BinaryOperator o_divide (IntegerLiteral 1) (IntegerLiteral 0)) []
      = .error .undefined := by decide
  rw [h]
  simp

/-- C10 (amended): when the two children of a BinaryOperator evaluate successfully,
the right one leaving the stack s2, the handler fails with the stack error if
and only if s2 holds fewer than two entries; otherwise s2 is some base followed
by a and b and, unless the operator is o_divide and the division faults (b is
0, or a is INT_MIN and b is -1), the handler leaves base followed by one value,
a stack one entry shorter than s2; `() + 1` from the empty stack fails with the
stack error. -/
theorem C10_binop_stack_error (op : Operator) (l r : Node) (s s1 s2 : Stack)
    (hl : evalNode l s = .ok s1) (hr : evalNode r s1 = .ok s2) :
    (evalNode (BinaryOperator op l r) s = .error (.error "Evaluate: error: stack error")
      ↔ s2.length < 2) ∧
    (¬ s2.length < 2 → ∃ (base : Stack) (a b : Int), s2 = base ++ [a, b] ∧
      (¬ (op = o_divide ∧ (b = 0 ∨ (a = INT_MIN ∧ b = -1))) →
        ∃ v : Int, evalNode (BinaryOperator op l r) s = .ok (base ++ [v]) ∧
          (base ++ [v]).length + 1 = s2.length)) ∧
    evalNode (BinaryOperator o_plus (Sequence []) (IntegerLiteral 1)) []
      = .error (.error "Evaluate: error: stack error") := by
  rw [binop_children_ok op hl hr]
  refine ⟨⟨?_, binop_apply_short op s2⟩, ?_, by decide⟩
  · intro h
    by_contra hlen
    obtain ⟨base, a, b, rfl⟩ := stack_two_decomp s2 (by omega)
    rw [binop_apply_two] at h
    cases hv : binop_eval op a b <;> rw [hv] at h <;> simp at h
  · intro hlen
    obtain ⟨base, a, b, rfl⟩ := stack_two_decomp s2 (by omega)
    refine ⟨base, a, b, rfl, ?_⟩
    intro hfault
    obtain ⟨v, hv⟩ := binop_eval_some op a b hfault
    rw [binop_apply_two, hv]
    exact ⟨v, rfl, by simp⟩

/-- C10, witness: in `(3 + 4) * 2` the children of the product leave [7, 2], and
the product leaves [14], one entry fewer; no stack error. -/
theorem C10_binop_stack_error_witness :
    evalNode (BinaryOperator o_plus (IntegerLiteral 3) (IntegerLiteral 4)) [] = .ok [7] ∧
    evalNode (IntegerLiteral 2) [7] = .ok [7, 2] ∧
    (evalNode (BinaryOperator o_times
        (BinaryOperator o_plus (IntegerLiteral 3) (IntegerLiteral 4)) (IntegerLiteral 2)) []
        = .error (.error "Evaluate: error: stack error")
      ↔ ([7, 2] : Stack).length < 2) :=
  ⟨by decide, by decide,
    (C10_binop_stack_error o_times (BinaryOperator o_plus (IntegerLiteral 3) (IntegerLiteral 4))
      (IntegerLiteral 2) [] [7] [7, 2] (by decide) (by decide)).1⟩

/-! ## Lemmas on the printer: every handler appends and restores the level -/

theorem get_type_name_guarded (t : AstType) (h : t ≠ .t_undef ∧ t ≠ .t_void) :
    get_type_name t = some "int" ∨ get_type_name t = some "string" := by
  cases t
  · exact Or.inl rfl
  · exact Or.inr rfl
  · exact absurd rfl h.2
  · exact absurd rfl h.1

theorem put_mk (s : String) (out : List Char) (L m : Int) :
    put s ⟨out, L, m⟩ = ⟨out ++ s.toList, L, m⟩ := rfl

theorem inc_mk (out : List Char) (L m : Int) : inc ⟨out, L, m⟩ = ⟨out, L + 1, m⟩ := rfl

theorem nl_mk (cfg : DumperConfig) (out : List Char) (L m : Int) :
    nl cfg ⟨out, L, m⟩ = ⟨out ++ '\n' :: indentation cfg L, L, m⟩ := rfl

theorem inl_mk (cfg : DumperConfig) (out : List Char) (L m : Int) :
    inl cfg ⟨out, L, m⟩ = ⟨out ++ '\n' :: indentation cfg (L + 1), L + 1, m⟩ := rfl

theorem dec_succ_mk (out : List Char) (L m : Int) (h : m ≤ L) :
    dec ⟨out, L + 1, m⟩ = ⟨out, L, m⟩ := by
  simp only [dec, Int.add_sub_cancel, Dumper.mk.injEq, true_and]
  exact min_eq_left h

theorem dnl_succ_mk (cfg : DumperConfig) (out : List Char) (L m : Int) (h : m ≤ L) :
    dnl cfg ⟨out, L + 1, m⟩ = ⟨out ++ '\n' :: indentation cfg L, L, m⟩ := by
  rw [dnl, dec_succ_mk out L m h, nl_mk]

theorem le_succ_of_le {m L : Int} (h : m ≤ L) : m ≤ L + 1 := by omega

theorem framed_printed {cfg : DumperConfig} {node : Node} {text : Int → List Char}
    (key : Framed (dump cfg node) text) : Framed (dump cfg node) (printed cfg node) := by
  intro out L m hm
  rw [key out L m hm, printed, key [] L L (Int.le_refl L)]
  simp

theorem framed_binop {cfg : DumperConfig} {left right : Node} (op : Operator)
    (hl : Framed (dump cfg left) (printed cfg left))
    (hr : Framed (dump cfg right) (printed cfg right)) :
    Framed (dump cfg (.BinaryOperator op left right)) (fun L =>
      '(' :: printed cfg left L ++ (cfg.operator_name op).toList ++ printed cfg right L
        ++ [')']) := by
  intro out L m hm
  have hl1 := fun o => hl o L m hm
  have hr1 := fun o => hr o L m hm
  simp only [dump, put_mk, hl1, hr1]
  simp

theorem framed_sequence {cfg : DumperConfig} {exprs : List Node}
    (he : ∀ first, Framed (dumpExprs cfg exprs first) (fun L => exprLines cfg L exprs first)) :
    Framed (dump cfg (.Sequence exprs)) (fun L =>
      '(' :: exprLines cfg (L + 1) exprs true ++ '\n' :: indentation cfg L ++ [')']) := by
  intro out L m hm
  have he1 := fun o => he true o (L + 1) m (le_succ_of_le hm)
  have hd := fun o => dnl_succ_mk cfg o L m hm
  simp only [dump, put_mk, inc_mk, he1, hd]
  simp

theorem framed_let {cfg : DumperConfig} {decls sequence : List Node}
    (hd : Framed (dumpDecls cfg decls) (fun L => declLines cfg L decls))
    (he : ∀ first, Framed (dumpExprs cfg sequence first)
      (fun L => exprLines cfg L sequence first)) :
    Framed (dump cfg (.Let decls sequence)) (fun L =>
      "let".toList ++ declLines cfg (L + 1) decls ++ '\n' :: indentation cfg L ++ "in".toList
        ++ exprLines cfg (L + 1) sequence true ++ '\n' :: indentation cfg L ++ "end".toList) := by
  intro out L m hm
  have hd1 := fun o => hd o (L + 1) m (le_succ_of_le hm)
  have he1 := fun o => he true o (L + 1) m (le_succ_of_le hm)
  have hc := fun o => dnl_succ_mk cfg o L m hm
  simp only [dump, put_mk, inc_mk, hd1, he1, hc]
  simp

theorem framed_ite {cfg : DumperConfig} {c t e : Node}
    (hc : Framed (dump cfg c) (printed cfg c)) (ht : Framed (dump cfg t) (printed cfg t))
    (he : Framed (dump cfg e) (printed cfg e)) :
    Framed (dump cfg (.IfThenElse c t e)) (fun L =>
      "if ".toList ++ '\n' :: indentation cfg (L + 1) ++ printed cfg c (L + 1)
        ++ '\n' :: indentation cfg L ++ " then ".toList
        ++ '\n' :: indentation cfg (L + 1) ++ printed cfg t (L + 1)
        ++ '\n' :: indentation cfg L ++ " else ".toList
        ++ '\n' :: indentation cfg (L + 1) ++ printed cfg e (L + 1)) := by
  intro out L m hm
  have hc1 := fun o => hc o (L + 1) m (le_succ_of_le hm)
  have ht1 := fun o => ht o (L + 1) m (le_succ_of_le hm)
  have he1 := fun o => he o (L + 1) m (le_succ_of_le hm)
  have hd := fun o => dnl_succ_mk cfg o L m hm
  have hd2 := fun o => dec_succ_mk o L m hm
  simp only [dump, put_mk, inl_mk, hc1, ht1, he1, hd, hd2]
  simp

theorem dumpChar_mk (c : Char) (out : List Char) (L m : Int) :
    dumpChar c ⟨out, L, m⟩ = ⟨out ++ escaped c, L, m⟩ := by
  unfold dumpChar
  split_ifs with h1 h2 h3 h4 h5 h6 h7 h8 h9
  · subst h1; rfl
  · subst h2; rfl
  · subst h3; rfl
  · subst h4; rfl
  · subst h5; rfl
  · subst h6; rfl
  · subst h7; rfl
  · subst h8; rfl
  · subst h9; rfl
  · have h : escapeLetter c = none := by
      simp only [escapeLetter, escapeTable, List.lookup, beq_eq_false_iff_ne.2 h1,
        beq_eq_false_iff_ne.2 h2, beq_eq_false_iff_ne.2 h3, beq_eq_false_iff_ne.2 h4,
        beq_eq_false_iff_ne.2 h5, beq_eq_false_iff_ne.2 h6, beq_eq_false_iff_ne.2 h7,
        beq_eq_false_iff_ne.2 h8, beq_eq_false_iff_ne.2 h9]
    simp [escaped, h]

theorem dumpChars_mk (s : List Char) (out : List Char) (L m : Int) :
    dumpChars s ⟨out, L, m⟩ = ⟨out ++ escapedText s, L, m⟩ := by
  induction s generalizing out with
  | nil => simp [dumpChars, escapedText]
  | cons c rest ih =>
    simp only [dumpChars, dumpChar_mk, ih]
    simp [escapedText]

theorem framed_integer (cfg : DumperConfig) (value : Int) :
    Framed (dump cfg (.IntegerLiteral value)) (fun _ => (toString value).toList) := by
  intro out L m _
  simp only [dump, put_mk]

theorem framed_string (cfg : DumperConfig) (value : String) :
    Framed (dump cfg (.StringLiteral value))
      (fun _ => '"' :: escapedText value.toList ++ ['"']) := by
  intro out L m _
  simp only [dump, put_mk, dumpChars_mk]
  simp

theorem framed_identifier (cfg : DumperConfig) (name : String) (decl : Option DeclRef)
    (depth : Int) :
    Framed (dump cfg (.Identifier name decl depth))
      (fun _ => (dump cfg (.Identifier name decl depth) ⟨[], 0, 0⟩).ostream) := by
  intro out L m _
  simp only [dump, put_mk]
  cases cfg.verbose <;> cases decl <;> simp
  split_ifs <;> simp [put_mk]

theorem framed_break (cfg : DumperConfig) (loop : Option String) :
    Framed (dump cfg (.Break loop))
      (fun _ => (dump cfg (.Break loop) ⟨[], 0, 0⟩).ostream) := by
  intro out L m _
  simp only [dump, put_mk]
  cases cfg.verbose <;> cases loop <;> simp [put_mk]

theorem framed_vardecl {cfg : DumperConfig} (name : String) (type_name : Option String)
    {expr : Option Node} (escapes : Bool) (type : AstType)
    (hi : Framed (dumpInit cfg expr) (fun L => initText cfg L expr)) :
    Framed (dump cfg (.VarDecl name type_name expr escapes type)) (fun L =>
      (if expr.isSome then "var ".toList else []) ++ name.toList
        ++ (if cfg.verbose && escapes then "/*e*/".toList else [])
        ++ typeAnnotation type_name type ++ initText cfg L expr) := by
  intro out L m hm
  have hi1 := fun o => hi o L m hm
  cases hv : cfg.verbose <;> cases escapes <;> cases type_name <;> cases type <;>
    cases hx : expr.isSome <;>
    simp [dump, put_mk, hi1, hv, hx, typeAnnotation, get_type_name]

theorem framed_fundecl {cfg : DumperConfig} (name external_name : String)
    {params : List Node} (type_name : Option String) {expr : Node}
    (hp : ∀ first, Framed (dumpArgs cfg params first) (fun L => argTexts cfg L params first))
    (he : Framed (dump cfg expr) (printed cfg expr)) :
    Framed (dump cfg (.FunDecl name external_name params type_name expr))
      (printed cfg (.FunDecl name external_name params type_name expr)) := by
  intro out L m hm
  have hp1 := fun o => hp true o L m hm
  have hp2 := fun o => hp true o L L (Int.le_refl L)
  have he1 := fun o => he o (L + 1) m (le_succ_of_le hm)
  have he2 := fun o => he o (L + 1) L (le_succ_of_le (Int.le_refl L))
  have hd1 := fun o => dec_succ_mk o L m hm
  have hd2 := fun o => dec_succ_mk o L L (Int.le_refl L)
  by_cases hv : cfg.verbose = true ∧ ¬ name = external_name <;> cases type_name <;>
    simp [printed, dump, put_mk, inl_mk, hp1, hp2, he1, he2, hd1, hd2, hv]

theorem framed_funcall {cfg : DumperConfig} (func_name : String) (decl : Option String)
    {args : List Node}
    (ha : ∀ first, Framed (dumpArgs cfg args first) (fun L => argTexts cfg L args first)) :
    Framed (dump cfg (.FunCall func_name decl args))
      (printed cfg (.FunCall func_name decl args)) := by
  intro out L m hm
  have ha1 := fun o => ha true o L m hm
  have ha2 := fun o => ha true o L L (Int.le_refl L)
  cases hv : cfg.verbose <;> cases decl <;>
    simp [printed, dump, put_mk, ha1, ha2, hv]

theorem framed_while {cfg : DumperConfig} {condition body : Node}
    (hc : Framed (dump cfg condition) (printed cfg condition))
    (hb : Framed (dump cfg body) (printed cfg body)) :
    Framed (dump cfg (.WhileLoop condition body)) (fun L =>
      "while ".toList ++ printed cfg condition L ++ " do".toList
        ++ '\n' :: indentation cfg (L + 1) ++ printed cfg body (L + 1)) := by
  intro out L m hm
  have hc1 := fun o => hc o L m hm
  have hb1 := fun o => hb o (L + 1) m (le_succ_of_le hm)
  have hd1 := fun o => dec_succ_mk o L m hm
  simp only [dump, put_mk, inl_mk, hc1, hb1, hd1]
  simp

theorem framed_for {cfg : DumperConfig} (var_name : String) (var_escapes : Bool)
    {var_expr high body : Node}
    (hv : Framed (dump cfg var_expr) (printed cfg var_expr))
    (hh : Framed (dump cfg high) (printed cfg high))
    (hb : Framed (dump cfg body) (printed cfg body)) :
    Framed (dump cfg (.ForLoop var_name var_escapes var_expr high body)) (fun L =>
      "for ".toList ++ var_name.toList
        ++ (if cfg.verbose && var_escapes then "/*e*/".toList else [])
        ++ " := ".toList ++ printed cfg var_expr L ++ " to ".toList ++ printed cfg high L
        ++ " do".toList ++ '\n' :: indentation cfg (L + 1) ++ printed cfg body (L + 1)) := by
  intro out L m hm
  have hv1 := fun o => hv o L m hm
  have hh1 := fun o => hh o L m hm
  have hb1 := fun o => hb o (L + 1) m (le_succ_of_le hm)
  have hd1 := fun o => dec_succ_mk o L m hm
  cases hx : (cfg.verbose && var_escapes) <;>
    simp [dump, put_mk, inl_mk, hv1, hh1, hb1, hd1, hx]

theorem framed_assign {cfg : DumperConfig} {lhs rhs : Node}
    (hl : Framed (dump cfg lhs) (printed cfg lhs))
    (hr : Framed (dump cfg rhs) (printed cfg rhs)) :
    Framed (dump cfg (.Assign lhs rhs)) (fun L =>
      printed cfg lhs L ++ " := ".toList ++ printed cfg rhs L) := by
  intro out L m hm
  have hl1 := fun o => hl o L m hm
  have hr1 := fun o => hr o L m hm
  simp only [dump, put_mk, hl1, hr1]
  simp

theorem framed_exprs_nil (cfg : DumperConfig) (first : Bool) :
    Framed (dumpExprs cfg [] first) (fun L => exprLines cfg L [] first) := by
  intro out L m _
  simp [dumpExprs, exprLines]

theorem framed_exprs_cons {cfg : DumperConfig} {expr : Node} {rest : List Node}
    (he : Framed (dump cfg expr) (printed cfg expr))
    (hr : ∀ first, Framed (dumpExprs cfg rest first) (fun L => exprLines cfg L rest first))
    (first : Bool) :
    Framed (dumpExprs cfg (expr :: rest) first)
      (fun L => exprLines cfg L (expr :: rest) first) := by
  intro out L m hm
  have he1 := fun o => he o L m hm
  have hr1 := fun o => hr false o L m hm
  cases first <;> simp [dumpExprs, exprLines, put_mk, nl_mk, he1, hr1]

theorem framed_decls_nil (cfg : DumperConfig) :
    Framed (dumpDecls cfg []) (fun L => declLines cfg L []) := by
  intro out L m _
  simp [dumpDecls, declLines]

theorem framed_decls_cons {cfg : DumperConfig} {decl : Node} {rest : List Node}
    (he : Framed (dump cfg decl) (printed cfg decl))
    (hr : Framed (dumpDecls cfg rest) (fun L => declLines cfg L rest)) :
    Framed (dumpDecls cfg (decl :: rest)) (fun L => declLines cfg L (decl :: rest)) := by
  intro out L m hm
  have he1 := fun o => he o L m hm
  have hr1 := fun o => hr o L m hm
  simp [dumpDecls, declLines, nl_mk, he1, hr1]

theorem framed_args_nil (cfg : DumperConfig) (first : Bool) :
    Framed (dumpArgs cfg [] first) (fun L => argTexts cfg L [] first) := by
  intro out L m _
  simp [dumpArgs, argTexts]

theorem framed_args_cons {cfg : DumperConfig} {arg : Node} {rest : List Node}
    (he : Framed (dump cfg arg) (printed cfg arg))
    (hr : ∀ first, Framed (dumpArgs cfg rest first) (fun L => argTexts cfg L rest first))
    (first : Bool) :
    Framed (dumpArgs cfg (arg :: rest) first)
      (fun L => argTexts cfg L (arg :: rest) first) := by
  intro out L m hm
  have he1 := fun o => he o L m hm
  have hr1 := fun o => hr false o L m hm
  cases first <;> simp [dumpArgs, argTexts, put_mk, he1, hr1]

theorem framed_init_none (cfg : DumperConfig) :
    Framed (dumpInit cfg none) (fun L => initText cfg L none) := by
  intro out L m _
  simp [dumpInit, initText]

theorem framed_init_some {cfg : DumperConfig} {expr : Node}
    (he : Framed (dump cfg expr) (printed cfg expr)) :
    Framed (dumpInit cfg (some expr)) (fun L => initText cfg L (some expr)) := by
  intro out L m hm
  have he1 := fun o => he o L m hm
  simp [dumpInit, initText, put_mk, he1]

mutual
theorem dump_framed (cfg : DumperConfig) :
    ∀ node : Node, Framed (dump cfg node) (printed cfg node)
  | .IntegerLiteral value => framed_printed (framed_integer cfg value)
  | .StringLiteral value => framed_printed (framed_string cfg value)
  | .BinaryOperator op left right =>
    framed_printed (framed_binop op (dump_framed cfg left) (dump_framed cfg right))
  | .Sequence exprs => framed_printed (framed_sequence (dumpExprs_framed cfg exprs))
  | .Let decls sequence =>
    framed_printed (framed_let (dumpDecls_framed cfg decls) (dumpExprs_framed cfg sequence))
  | .Identifier name decl depth => framed_printed (framed_identifier cfg name decl depth)
  | .IfThenElse c t e =>
    framed_printed (framed_ite (dump_framed cfg c) (dump_framed cfg t) (dump_framed cfg e))
  | .VarDecl name type_name expr escapes type =>
    framed_printed (framed_vardecl name type_name escapes type (dumpInit_framed cfg expr))
  | .FunDecl name external_name params type_name expr =>
    framed_fundecl name external_name type_name (dumpArgs_framed cfg params)
      (dump_framed cfg expr)
  | .FunCall func_name decl args => framed_funcall func_name decl (dumpArgs_framed cfg args)
  | .WhileLoop condition body =>
    framed_printed (framed_while (dump_framed cfg condition) (dump_framed cfg body))
  | .ForLoop var_name var_escapes var_expr high body =>
    framed_printed (framed_for var_name var_escapes (dump_framed cfg var_expr)
      (dump_framed cfg high) (dump_framed cfg body))
  | .Break loop => framed_printed (framed_break cfg loop)
  | .Assign lhs rhs =>
    framed_printed (framed_assign (dump_framed cfg lhs) (dump_framed cfg rhs))
theorem dumpExprs_framed (cfg : DumperConfig) :
    ∀ (exprs : List Node) (first : Bool),
      Framed (dumpExprs cfg exprs first) (fun L => exprLines cfg L exprs first)
  | [], first => framed_exprs_nil cfg first
  | expr :: rest, first =>
    framed_exprs_cons (dump_framed cfg expr) (dumpExprs_framed cfg rest) first
theorem dumpDecls_framed (cfg : DumperConfig) :
    ∀ decls : List Node, Framed (dumpDecls cfg decls) (fun L => declLines cfg L decls)
  | [] => framed_decls_nil cfg
  | decl :: rest => framed_decls_cons (dump_framed cfg decl) (dumpDecls_framed cfg rest)
theorem dumpArgs_framed (cfg : DumperConfig) :
    ∀ (args : List Node) (first : Bool),
      Framed (dumpArgs cfg args first) (fun L => argTexts cfg L args first)
  | [], first => framed_args_nil cfg first
  | arg :: rest, first =>
    framed_args_cons (dump_framed cfg arg) (dumpArgs_framed cfg rest) first
theorem dumpInit_framed (cfg : DumperConfig) :
    ∀ expr : Option Node, Framed (dumpInit cfg expr) (fun L => initText cfg L expr)
  | none => framed_init_none cfg
  | some expr => framed_init_some (dump_framed cfg expr)
end

theorem printed_of_framed {cfg : DumperConfig} {node : Node} {text : Int → List Char}
    (key : Framed (dump cfg node) text) (L : Int) : printed cfg node L = text L := by
  rw [printed, key [] L L (Int.le_refl L)]
  simp

theorem intercalate_cons (sep b : List Char) (bs : List (List Char)) :
    List.intercalate sep (b :: bs) = b ++ (bs.map (fun x => sep ++ x)).flatten := by
  induction bs generalizing b with
  | nil => simp [List.intercalate]
  | cons c cs ih =>
    have h := ih c
    simp only [List.intercalate] at h ⊢
    simp [h]

theorem exprLines_false (cfg : DumperConfig) (L : Int) (exprs : List Node) :
    exprLines cfg L exprs false =
      (exprs.map (fun e => [';'] ++ ('\n' :: indentation cfg L ++ printed cfg e L))).flatten := by
  induction exprs with
  | nil => simp [exprLines]
  | cons e rest ih => simp [exprLines, ih]

theorem exprLines_true (cfg : DumperConfig) (L : Int) (exprs : List Node) :
    exprLines cfg L exprs true =
      List.intercalate [';']
        (exprs.map (fun e => '\n' :: indentation cfg L ++ printed cfg e L)) := by
  cases exprs with
  | nil => simp [exprLines, List.intercalate]
  | cons e rest =>
    rw [List.map_cons, intercalate_cons]
    simp [exprLines, exprLines_false, List.map_map, Function.comp_def]

theorem exprLines_append (cfg : DumperConfig) (L : Int) (before after : List Node)
    (first : Bool) :
    exprLines cfg L (before ++ after) first =
      exprLines cfg L before first ++ exprLines cfg L after (first && before.isEmpty) := by
  induction before generalizing first with
  | nil => simp [exprLines]
  | cons e rest ih => simp [exprLines, ih]

theorem declLines_eq (cfg : DumperConfig) (L : Int) (decls : List Node) :
    declLines cfg L decls =
      (decls.map (fun d => '\n' :: indentation cfg L ++ printed cfg d L)).flatten := by
  induction decls with
  | nil => simp [declLines]
  | cons d rest ih => simp [declLines, ih]

theorem escaped_length (c : Char) :
    (escaped c).length = 1 + (if hasEscape c = true then 1 else 0) := by
  unfold escaped hasEscape
  cases escapeLetter c <;> simp

theorem escapedText_length (s : List Char) :
    (escapedText s).length = s.length + (s.filter hasEscape).length := by
  induction s with
  | nil => simp [escapedText]
  | cons c rest ih =>
    have h : escapedText (c :: rest) = escaped c ++ escapedText rest := by simp [escapedText]
    rw [h, List.length_append, ih, escaped_length, List.filter_cons]
    split_ifs <;> simp <;> omega

theorem escaped_cases (c : Char) :
    (∃ x : Char, escaped c = ['\\', x] ∧ unescapeLetter x = c) ∨
    (escaped c = [c] ∧ c ≠ '\\' ∧ c ≠ '"') := by
  by_cases h1 : c = '"'
  · subst h1; exact Or.inl ⟨'"', by decide, by decide⟩
  by_cases h2 : c = '\\'
  · subst h2; exact Or.inl ⟨'\\', by decide, by decide⟩
  by_cases h3 : c = '\x07'
  · subst h3; exact Or.inl ⟨'a', by decide, by decide⟩
  by_cases h4 : c = '\x08'
  · subst h4; exact Or.inl ⟨'b', by decide, by decide⟩
  by_cases h5 : c = '\t'
  · subst h5; exact Or.inl ⟨'t', by decide, by decide⟩
  by_cases h6 : c = '\n'
  · subst h6; exact Or.inl ⟨'n', by decide, by decide⟩
  by_cases h7 : c = '\x0b'
  · subst h7; exact Or.inl ⟨'v', by decide, by decide⟩
  by_cases h8 : c = '\x0c'
  · subst h8; exact Or.inl ⟨'f', by decide, by decide⟩
  by_cases h9 : c = '\r'
  · subst h9; exact Or.inl ⟨'r', by decide, by decide⟩
  refine Or.inr ⟨?_, h2, h1⟩
  have h : escapeLetter c = none := by
    simp only [escapeLetter, escapeTable, List.lookup, beq_eq_false_iff_ne.2 h1,
      beq_eq_false_iff_ne.2 h2, beq_eq_false_iff_ne.2 h3, beq_eq_false_iff_ne.2 h4,
      beq_eq_false_iff_ne.2 h5, beq_eq_false_iff_ne.2 h6, beq_eq_false_iff_ne.2 h7,
      beq_eq_false_iff_ne.2 h8, beq_eq_false_iff_ne.2 h9]
  simp [escaped, h]

theorem escapedText_cons (c : Char) (rest : List Char) :
    escapedText (c :: rest) = escaped c ++ escapedText rest := by
  simp [escapedText]

theorem unescapeBody_cons_of_ne {c : Char} (rest : List Char) (h : c ≠ '\\') :
    unescapeBody (c :: rest) = c :: unescapeBody rest := by
  cases rest <;> simp [unescapeBody, h]

theorem quotesEscaped_cons_of_ne {c : Char} (rest : List Char) (h1 : c ≠ '\\')
    (h2 : c ≠ '"') : quotesEscaped (c :: rest) = quotesEscaped rest := by
  cases rest <;> simp [quotesEscaped, h1, h2]

theorem unescapeBody_escapedText (s : List Char) : unescapeBody (escapedText s) = s := by
  induction s with
  | nil => simp [escapedText, unescapeBody]
  | cons c rest ih =>
    rw [escapedText_cons]
    rcases escaped_cases c with ⟨x, hx, hc⟩ | ⟨hx, h1, _⟩
    · rw [hx]
      simp [unescapeBody, hc, ih]
    · rw [hx, List.singleton_append, unescapeBody_cons_of_ne _ h1, ih]

theorem quotesEscaped_escapedText (s : List Char) : quotesEscaped (escapedText s) = true := by
  induction s with
  | nil => simp [escapedText, quotesEscaped]
  | cons c rest ih =>
    rw [escapedText_cons]
    rcases escaped_cases c with ⟨x, hx, _⟩ | ⟨hx, h1, h2⟩
    · rw [hx]
      simp [quotesEscaped, ih]
    · rw [hx, List.singleton_append, quotesEscaped_cons_of_ne _ h1 h2, ih]

theorem strip_delimiters (body : List Char) : ('"' :: body ++ ['"']).tail.dropLast = body := by
  simp

theorem quote_after_backslash : ∀ (text : List Char), quotesEscaped text = true →
    ∀ i : Nat, text[i]? = some '"' → ∃ j : Nat, i = j + 1 ∧ text[j]? = some '\\'
  | [], _, i, hi => by simp at hi
  | [c], h, i, hi => by
    by_cases h1 : c = '\\'
    · simp [quotesEscaped, h1] at h
    · by_cases h2 : c = '"'
      · simp [quotesEscaped, h1, h2] at h
      · cases i with
        | zero => simp at hi; exact absurd hi h2
        | succ k => simp at hi
  | c :: x :: rest, h, i, hi => by
    by_cases h1 : c = '\\'
    · simp only [quotesEscaped, h1, if_true] at h
      cases i with
      | zero => simp [h1] at hi
      | succ k =>
        cases k with
        | zero => exact ⟨0, rfl, by simp [h1]⟩
        | succ n =>
          have hi2 : rest[n]? = some '"' := by simpa using hi
          obtain ⟨j, hj, hjb⟩ := quote_after_backslash rest h n hi2
          exact ⟨j + 2, by omega, by simpa using hjb⟩
    · by_cases h2 : c = '"'
      · simp [quotesEscaped, h1, h2] at h
      · simp only [quotesEscaped, h1, h2, if_false] at h
        cases i with
        | zero => simp at hi; exact absurd hi h2
        | succ k =>
          have hi2 : (x :: rest)[k]? = some '"' := by simpa using hi
          obtain ⟨j, hj, hjb⟩ := quote_after_backslash (x :: rest) h k hi2
          exact ⟨j + 1, by omega, by simpa using hjb⟩

/-! ## Lemmas on the evaluator, continued -/

theorem meets_binop_left {bad : Int → Int → Bool} {l : Node} {s : Stack} (op : Operator)
    (r : Node) (h : divisionMeets bad l s = true) :
    divisionMeets bad (.BinaryOperator op l r) s = true := by
  simp [divisionMeets, h]

theorem meets_binop_right {bad : Int → Int → Bool} {l r : Node} {s s1 : Stack}
    (op : Operator) (hl : evalNode l s = .ok s1) (h : divisionMeets bad r s1 = true) :
    divisionMeets bad (.BinaryOperator op l r) s = true := by
  simp [divisionMeets, hl, h]

theorem meets_binop_operands {bad : Int → Int → Bool} {l r : Node} {s s1 base : Stack}
    {a b : Int} (op : Operator) (hnl : divisionMeets bad l s = false)
    (hl : evalNode l s = .ok s1) (hnr : divisionMeets bad r s1 = false)
    (hr : evalNode r s1 = .ok (base ++ [a, b])) :
    divisionMeets bad (.BinaryOperator op l r) s = (decide (op = .o_divide) && bad a b) := by
  simp [divisionMeets, hnl, hl, hnr, hr, back_two_fst, back_two_snd]

theorem meets_ite_condition {bad : Int → Int → Bool} {c : Node} {s : Stack} (t e : Node)
    (h : divisionMeets bad c s = true) : divisionMeets bad (.IfThenElse c t e) s = true := by
  simp [divisionMeets, h]

theorem meets_ite_nonzero {bad : Int → Int → Bool} {c : Node} {s s1 : Stack} {v : Int}
    (t e : Node) (hn : divisionMeets bad c s = false) (hc : evalNode c s = .ok (s1 ++ [v]))
    (hv : v ≠ 0) :
    divisionMeets bad (.IfThenElse c t e) s = divisionMeets bad t s1 := by
  simp [divisionMeets, hn, hc, ite_pop_one, hv]

theorem meets_ite_zero {bad : Int → Int → Bool} {c : Node} {s s1 : Stack}
    (t e : Node) (hn : divisionMeets bad c s = false) (hc : evalNode c s = .ok (s1 ++ [0])) :
    divisionMeets bad (.IfThenElse c t e) s = divisionMeets bad e s1 := by
  simp [divisionMeets, hn, hc, ite_pop_one]

theorem meets_list_head {bad : Int → Int → Bool} {expr : Node} {s : Stack}
    (rest : List Node) (h : divisionMeets bad expr s = true) :
    divisionMeetsList bad (expr :: rest) s = true := by
  simp [divisionMeetsList, h]

theorem meets_list_tail {bad : Int → Int → Bool} {expr : Node} {s s1 : Stack}
    (rest : List Node) (hn : divisionMeets bad expr s = false)
    (h : evalNode expr s = .ok s1) :
    divisionMeetsList bad (expr :: rest) s = divisionMeetsList bad rest s1 := by
  simp [divisionMeetsList, hn, h]

theorem binop_eval_of_not_faulty (op : Operator) (a b : Int)
    (h : (decide (op = .o_divide) && faultyDivision a b) = false) :
    ∃ v : Int, binop_eval op a b = some v := by
  apply binop_eval_some
  rintro ⟨h1, h2⟩
  simp [faultyDivision, h1, h2] at h

mutual
theorem pushing_or_fault : ∀ (t : Node), pushingShape t = true →
    (∀ s : Stack, divisionMeets faultyDivision t s = true) ∨
    (∃ vs : Stack, vs ≠ [] ∧ ∀ s : Stack,
      divisionMeets faultyDivision t s = false ∧ evalNode t s = .ok (s ++ vs))
  | .IntegerLiteral v, _ =>
    Or.inr ⟨[v], by simp, fun s => ⟨by simp [divisionMeets], evalNode_literal v s⟩⟩
  | .BinaryOperator op l r, h => by
    simp only [pushingShape, Bool.and_eq_true] at h
    rcases pushing_or_fault l h.1 with hl | ⟨vl, hvl, hl⟩
    · exact Or.inl fun s => meets_binop_left op r (hl s)
    rcases pushing_or_fault r h.2 with hr | ⟨vr, hvr, hr⟩
    · exact Or.inl fun s => meets_binop_right op (hl s).2 (hr _)
    have hlen : 2 ≤ (vl ++ vr).length := by
      have h1 : 0 < vl.length := List.length_pos.2 hvl
      have h2 : 0 < vr.length := List.length_pos.2 hvr
      simp only [List.length_append]
      omega
    obtain ⟨ws, a, b, hab⟩ := stack_two_decomp (vl ++ vr) hlen
    have hr2 : ∀ s : Stack, evalNode r (s ++ vl) = .ok ((s ++ ws) ++ [a, b]) := by
      intro s
      rw [(hr (s ++ vl)).2, List.append_assoc, hab, List.append_assoc]
    cases hbad : (decide (op = .o_divide) && faultyDivision a b)
    · obtain ⟨v, hv⟩ := binop_eval_of_not_faulty op a b hbad
      refine Or.inr ⟨ws ++ [v], by simp, fun s => ⟨?_, ?_⟩⟩
      · rw [meets_binop_operands op (hl s).1 (hl s).2 (hr _).1 (hr2 s), hbad]
      · rw [binop_children_ok op (hl s).2 (hr2 s), binop_apply_two, hv]
        simp
    · exact Or.inl fun s => by
        rw [meets_binop_operands op (hl s).1 (hl s).2 (hr _).1 (hr2 s), hbad]
  | .Sequence exprs, h => by
    simp only [pushingShape, Bool.and_eq_true, Bool.not_eq_true', List.isEmpty_eq_false] at h
    rcases pushing_or_fault_list exprs h.2 with hf | ⟨vs, hlen, hvs⟩
    · exact Or.inl fun s => by simpa [divisionMeets] using hf s
    · refine Or.inr ⟨vs, ?_, fun s => ?_⟩
      · intro hnil
        have h0 : 0 < exprs.length := List.length_pos.2 h.1
        rw [hnil, List.length_nil] at hlen
        omega
      · simpa [divisionMeets, evalNode] using hvs s
  | .IfThenElse c t e, h => by
    simp only [pushingShape, Bool.and_eq_true] at h
    rcases pushing_or_fault c h.1.1 with hc | ⟨vc, hvc, hc⟩
    · exact Or.inl fun s => meets_ite_condition t e (hc s)
    rcases stack_cases vc with rfl | ⟨ws, v, rfl⟩
    · exact absurd rfl hvc
    have hc2 : ∀ s : Stack, evalNode c s = .ok ((s ++ ws) ++ [v]) := by
      intro s
      rw [(hc s).2, List.append_assoc]
    by_cases hv : v = 0
    · subst hv
      rcases pushing_or_fault e h.2 with he | ⟨ve, hve, he⟩
      · exact Or.inl fun s => by rw [meets_ite_zero t e (hc s).1 (hc2 s)]; exact he _
      · refine Or.inr ⟨ws ++ ve, by simp [hve], fun s => ⟨?_, ?_⟩⟩
        · rw [meets_ite_zero t e (hc s).1 (hc2 s)]; exact (he _).1
        · rw [ite_condition_zero t e (hc2 s), (he _).2, List.append_assoc]
    · rcases pushing_or_fault t h.1.2 with ht | ⟨vt, hvt, ht⟩
      · exact Or.inl fun s => by rw [meets_ite_nonzero t e (hc s).1 (hc2 s) hv]; exact ht _
      · refine Or.inr ⟨ws ++ vt, by simp [hvt], fun s => ⟨?_, ?_⟩⟩
        · rw [meets_ite_nonzero t e (hc s).1 (hc2 s) hv]; exact (ht _).1
        · rw [ite_condition_nonzero t e (hc2 s) hv, (ht _).2, List.append_assoc]
  | .StringLiteral _, h => by simp [pushingShape] at h
  | .Let _ _, h => by simp [pushingShape] at h
  | .Identifier _ _ _, h => by simp [pushingShape] at h
  | .VarDecl _ _ _ _ _, h => by simp [pushingShape] at h
  | .FunDecl _ _ _ _ _, h => by simp [pushingShape] at h
  | .FunCall _ _ _, h => by simp [pushingShape] at h
  | .WhileLoop _ _, h => by simp [pushingShape] at h
  | .ForLoop _ _ _ _ _, h => by simp [pushingShape] at h
  | .Break _, h => by simp [pushingShape] at h
  | .Assign _ _, h => by simp [pushingShape] at h
theorem pushing_or_fault_list : ∀ (exprs : List Node), pushingShapeList exprs = true →
    (∀ s : Stack, divisionMeetsList faultyDivision exprs s = true) ∨
    (∃ vs : Stack, exprs.length ≤ vs.length ∧ ∀ s : Stack,
      divisionMeetsList faultyDivision exprs s = false ∧ evalExprs exprs s = .ok (s ++ vs))
  | [], _ => Or.inr ⟨[], by simp, fun s => ⟨by simp [divisionMeetsList], by simp [evalExprs]⟩⟩
  | expr :: rest, h => by
    simp only [pushingShapeList, Bool.and_eq_true] at h
    rcases pushing_or_fault expr h.1 with he | ⟨ve, hve, he⟩
    · exact Or.inl fun s => meets_list_head rest (he s)
    rcases pushing_or_fault_list rest h.2 with hr | ⟨vr, hlen, hr⟩
    · exact Or.inl fun s => by rw [meets_list_tail rest (he s).1 (he s).2]; exact hr _
    · refine Or.inr ⟨ve ++ vr, ?_, fun s => ⟨?_, ?_⟩⟩
      · have h1 : 0 < ve.length := List.length_pos.2 hve
        simp only [List.length_cons, List.length_append]
        omega
      · rw [meets_list_tail rest (he s).1 (he s).2]; exact (hr _).1
      · rw [exprs_head_ok rest (he s).2, (hr _).2, List.append_assoc]
end

/-! ## The printer -/

/-- C11: for every string s, printing StringLiteral(s) emits a double quote, then
for each character of s in order its two-character escape when it is one of
the nine (quote, backslash, BEL, BS, TAB, LF, VT, FF, CR) and the character
itself otherwise (NUL and ESC for instance), then a double quote; the length of
the output is 2 + |s| + the number of characters of s among the nine; the
string made of a tab and a quote prints as the six characters `"\t\""`. -/
theorem C11_string_literal (cfg : DumperConfig) (value : String) (level : Int) :
    printed cfg (StringLiteral value) level = '"' :: escapedText value.toList ++ ['"'] ∧
    (printed cfg (StringLiteral value) level).length
      = 2 + value.length + (value.toList.filter hasEscape).length ∧
    [escaped '"', escaped '\\', escaped '\x07', escaped '\x08', escaped '\t', escaped '\n',
        escaped '\x0b', escaped '\x0c', escaped '\r']
      = [['\\', '"'], ['\\', '\\'], ['\\', 'a'], ['\\', 'b'], ['\\', 't'], ['\\', 'n'],
        ['\\', 'v'], ['\\', 'f'], ['\\', 'r']] ∧
    (∀ c : Char, c ∉ ['"', '\\', '\x07', '\x08', '\t', '\n', '\x0b', '\x0c', '\r'] →
      escaped c = [c]) ∧
    escaped '\x00' = ['\x00'] ∧ escaped '\x1b' = ['\x1b'] ∧
    printed cfg (StringLiteral "\t\"") level = ['"', '\\', 't', '\\', '"', '"'] := by
  have key := fun v => printed_of_framed (framed_string cfg v) level
  refine ⟨key value, ?_, by decide, ?_, by decide, by decide, ?_⟩
  · rw [key value]
    simp only [List.length_cons, List.length_append, escapedText_length, List.length_nil]
    have h : value.toList.length = value.length := String.length_data value
    omega
  · intro c hc
    simp only [List.mem_cons, List.mem_singleton, List.not_mem_nil, or_false, not_or] at hc
    obtain ⟨h1, h2, h3, h4, h5, h6, h7, h8, h9⟩ := hc
    have h : escapeLetter c = none := by
      simp only [escapeLetter, escapeTable, List.lookup, beq_eq_false_iff_ne.2 h1,
        beq_eq_false_iff_ne.2 h2, beq_eq_false_iff_ne.2 h3, beq_eq_false_iff_ne.2 h4,
        beq_eq_false_iff_ne.2 h5, beq_eq_false_iff_ne.2 h6, beq_eq_false_iff_ne.2 h7,
        beq_eq_false_iff_ne.2 h8, beq_eq_false_iff_ne.2 h9]
    simp [escaped, h]
  · rw [key]
    decide

/-- C11, witness: ESC is none of the nine characters and is printed unchanged. -/
theorem C11_string_literal_witness :
    '\x1b' ∉ ['"', '\\', '\x07', '\x08', '\t', '\n', '\x0b', '\x0c', '\r'] ∧
    escaped '\x1b' = ['\x1b'] ∧
    printed sampleConfig (StringLiteral "a\x1b\\") 0 = ['"', 'a', '\x1b', '\\', '\\', '"'] :=
  ⟨by decide,
    (C11_string_literal sampleConfig "a\x1b\\" 0).2.2.2.1 '\x1b' (by decide),
    by decide⟩

/-- C12: for every BinaryOperator node, every operator, every configuration of the
printer (either verbose setting, any table of symbols) and every indentation
level, the printed form is `(`, the printed left child, the operator's symbol,
the printed right child and `)`; it starts with `(` and ends with `)`, whatever
the children are. -/
theorem C12_binop_parenthesized (cfg : DumperConfig) (op : Operator) (left right : Node)
    (level : Int) :
    printed cfg (BinaryOperator op left right) level
      = '(' :: printed cfg left level ++ (cfg.operator_name op).toList
          ++ printed cfg right level ++ [')'] ∧
    (printed cfg (BinaryOperator op left right) level).head? = some '(' ∧
    (printed cfg (BinaryOperator op left right) level).getLast? = some ')' := by
  have key := printed_of_framed
    (framed_binop op (dump_framed cfg left) (dump_framed cfg right)) level
  simp only at key
  refine ⟨key, ?_, ?_⟩
  · rw [key]; simp
  · rw [key]; exact List.getLast?_concat _

/-- C13: printing a Sequence at indentation level L emits `(`, then for each child
in order a line break with the indentation of level L+1 followed by the child
printed at level L+1, these pieces being separated by a single `;` (one between
two consecutive children, none before the first or after the last, as for two
children a and b), then a line break with the indentation of level L and `)`;
the empty Sequence prints as `(`, one line break with the indentation of level
L, `)`. -/
theorem C13_sequence_layout (cfg : DumperConfig) (exprs : List Node) (level : Int) :
    printed cfg (Sequence exprs) level
      = '(' :: List.intercalate [';']
            (exprs.map (fun e =>
              '\n' :: indentation cfg (level + 1) ++ printed cfg e (level + 1)))
          ++ '\n' :: indentation cfg level ++ [')'] ∧
    (∀ a b : Node, printed cfg (Sequence [a, b]) level
      = '(' :: '\n' :: indentation cfg (level + 1) ++ printed cfg a (level + 1) ++ [';']
          ++ '\n' :: indentation cfg (level + 1) ++ printed cfg b (level + 1)
          ++ '\n' :: indentation cfg level ++ [')']) ∧
    printed cfg (Sequence []) level = '(' :: '\n' :: indentation cfg level ++ [')'] := by
  have key := fun es => printed_of_framed
    (@framed_sequence cfg es (dumpExprs_framed cfg es)) level
  simp only at key
  refine ⟨?_, ?_, ?_⟩
  · rw [key, exprLines_true]
  · intro a b
    rw [key]; simp [exprLines]
  · rw [key]; simp [exprLines]

/-- C14: printing a VarDecl emits, in this order, `var ` if and only if an
initializer is present; the name; `/*e*/` if and only if verbose mode is on
and the escape flag is set; the type annotation, which is `: T` for a declared
type name T whatever the resolved type is, otherwise `: int` or `: string`
for these resolved types and nothing for a resolved type that is void or
unresolved; and ` := ` followed by the printed initializer if and only if an
initializer is present. -/
theorem C14_vardecl_layout (cfg : DumperConfig) (name : String) (type_name : Option String)
    (expr : Option Node) (escapes : Bool) (type : AstType) (level : Int) :
    printed cfg (VarDecl name type_name expr escapes type) level
      = (if expr.isSome then "var ".toList else []) ++ name.toList
          ++ (if cfg.verbose && escapes then "/*e*/".toList else [])
          ++ typeAnnotation type_name type
          ++ (match expr with
              | some init => " := ".toList ++ printed cfg init level
              | none => []) ∧
    (∀ (tn : String) (t : AstType), typeAnnotation (some tn) t = ": ".toList ++ tn.toList) ∧
    typeAnnotation none .t_int = ": int".toList ∧
    typeAnnotation none .t_string = ": string".toList ∧
    typeAnnotation none .t_void = [] ∧
    typeAnnotation none .t_undef = [] := by
  refine ⟨?_, fun _ _ => rfl, rfl, rfl, rfl, rfl⟩
  rw [printed_of_framed (framed_vardecl name type_name escapes type (dumpInit_framed cfg expr))
    level]
  cases expr <;> simp [initText]

/-- C15: a Let whose own `in` and `end` lines are indented at level L prints each
element of its body after a line break with the indentation of level L+1; when
that element is another Let, the inner `let` thus stands on a line of level L+1,
the inner `in` and `end` lines are at level L+1, and the inner declarations and
body expressions are each printed at level L+2 after a line break with the
indentation of level L+2, for every L and all declarations and expressions. -/
theorem C15_nested_let (cfg : DumperConfig) (decls before after idecls ibody : List Node)
    (level : Int) :
    printed cfg (Let decls (before ++ Let idecls ibody :: after)) level
      = "let".toList ++ declLines cfg (level + 1) decls
          ++ '\n' :: indentation cfg level ++ "in".toList
          ++ exprLines cfg (level + 1) before true
          ++ (if before.isEmpty then [] else [';'])
          ++ '\n' :: indentation cfg (level + 1)
          ++ ("let".toList ++ declLines cfg (level + 2) idecls
              ++ '\n' :: indentation cfg (level + 1) ++ "in".toList
              ++ exprLines cfg (level + 2) ibody true
              ++ '\n' :: indentation cfg (level + 1) ++ "end".toList)
          ++ exprLines cfg (level + 1) after false
          ++ '\n' :: indentation cfg level ++ "end".toList ∧
    (∀ (l : Int) (ds : List Node), declLines cfg l ds
      = (ds.map (fun d => '\n' :: indentation cfg l ++ printed cfg d l)).flatten) ∧
    (∀ (l : Int) (es : List Node), exprLines cfg l es true
      = List.intercalate [';']
          (es.map (fun e => '\n' :: indentation cfg l ++ printed cfg e l))) := by
  have key := fun (ds es : List Node) (l : Int) => printed_of_framed
    (@framed_let cfg ds es (dumpDecls_framed cfg ds) (dumpExprs_framed cfg es)) l
  simp only at key
  refine ⟨?_, declLines_eq cfg, exprLines_true cfg⟩
  have h2 : level + 1 + 1 = level + 2 := by omega
  rw [key, exprLines_append]
  cases before with
  | nil => simp [exprLines, key, h2]
  | cons e rest => simp [exprLines, key, h2]

/-- C17, the claim as stated fails: `if 1 then 2 else 3`, printed at level 0 with
two spaces per level, is not the single line `if 1 then 2 else 3`: the handler
calls `inl` before each part and `dnl` after the first two, and each of these
calls breaks the line. -/
theorem C17_ite_breaks_lines :
    printed sampleConfig (IfThenElse (IntegerLiteral 1) (IntegerLiteral 2) (IntegerLiteral 3)) 0
      = "if \n  1\n then \n  2\n else \n  3".toList ∧
    printed sampleConfig (IfThenElse (IntegerLiteral 1) (IntegerLiteral 2) (IntegerLiteral 3)) 0
      ≠ "if 1 then 2 else 3".toList ∧
    '\n' ∈ printed sampleConfig
      (IfThenElse (IntegerLiteral 1) (IntegerLiteral 2) (IntegerLiteral 3)) 0 := by
  decide

/-- C17 (amended): printing an IfThenElse at level L emits `if `, a line break
with the indentation of level L+1 and the condition printed at level L+1, a
line break with the indentation of level L and ` then `, a line break with the
indentation of level L+1 and the then-branch printed at level L+1, a line
break with the indentation of level L and ` else `, a line break with the
indentation of level L+1 and the else-branch printed at level L+1; the level is
then brought back to L without a line break.  For three IntegerLiterals c, t
and e the output has six lines. -/
theorem C17_ite_layout (cfg : DumperConfig) (condition then_part else_part : Node)
    (level : Int) :
    printed cfg (IfThenElse condition then_part else_part) level
      = "if ".toList ++ '\n' :: indentation cfg (level + 1)
          ++ printed cfg condition (level + 1)
          ++ '\n' :: indentation cfg level ++ " then ".toList
          ++ '\n' :: indentation cfg (level + 1) ++ printed cfg then_part (level + 1)
          ++ '\n' :: indentation cfg level ++ " else ".toList
          ++ '\n' :: indentation cfg (level + 1) ++ printed cfg else_part (level + 1) ∧
    (∀ c t e : Int,
      printed cfg (IfThenElse (IntegerLiteral c) (IntegerLiteral t) (IntegerLiteral e)) level
        = "if ".toList ++ '\n' :: indentation cfg (level + 1) ++ (toString c).toList
            ++ '\n' :: indentation cfg level ++ " then ".toList
            ++ '\n' :: indentation cfg (level + 1) ++ (toString t).toList
            ++ '\n' :: indentation cfg level ++ " else ".toList
            ++ '\n' :: indentation cfg (level + 1) ++ (toString e).toList) ∧
    (dump cfg (IfThenElse condition then_part else_part) ⟨[], level, level⟩).indent_level
      = level := by
  have key := fun (c t e : Node) => printed_of_framed
    (framed_ite (dump_framed cfg c) (dump_framed cfg t) (dump_framed cfg e)) level
  have lit := fun (v : Int) (l : Int) => printed_of_framed (framed_integer cfg v) l
  simp only at key lit
  refine ⟨key _ _ _, ?_, ?_⟩
  · intro c t e
    rw [key, lit, lit, lit]
  · rw [dump_framed cfg _ [] level level (Int.le_refl level)]

/-- C19: for every node of every kind, every configuration (either verbose
setting) and every starting level L, when the handler returns the indentation
level is L again, and no decrement has brought the level below L in between;
so a traversal started at level 0 ends at level 0 without the level having
been below 0. -/
theorem C19_level_balanced (cfg : DumperConfig) (node : Node) (out : List Char)
    (level : Int) :
    (dump cfg node ⟨out, level, level⟩).indent_level = level ∧
    (dump cfg node ⟨out, level, level⟩).lowest = level ∧
    (dump cfg node ⟨[], 0, 0⟩).indent_level = 0 ∧
    (dump cfg node ⟨[], 0, 0⟩).lowest = 0 ∧
    (dump cfg node ⟨out, level, level⟩).ostream = out ++ printed cfg node level := by
  rw [dump_framed cfg node out level level (Int.le_refl level),
    dump_framed cfg node [] 0 0 (Int.le_refl 0)]
  exact ⟨rfl, rfl, rfl, rfl, rfl⟩

/-- C20: printing a string literal is injective and invertible: two StringLiterals
that print to the same text hold the same string; the unescape function (strip
the two delimiting quotes, map each backslash pair back to its character) gives
the string back from its printed form; and in the printed text between the
delimiters every backslash begins a pair and every quote is the second
character of such a pair, so that the character before it is a backslash. -/
theorem C20_string_literal_invertible (cfg cfg2 : DumperConfig) (s1 s2 : String)
    (level level2 : Int) :
    (printed cfg (StringLiteral s1) level = printed cfg2 (StringLiteral s2) level2 → s1 = s2) ∧
    unescape (printed cfg (StringLiteral s1) level) = s1.toList ∧
    quotesEscaped (printed cfg (StringLiteral s1) level).tail.dropLast = true ∧
    (∀ i : Nat, (printed cfg (StringLiteral s1) level).tail.dropLast[i]? = some '"' →
      ∃ j : Nat, i = j + 1 ∧
        (printed cfg (StringLiteral s1) level).tail.dropLast[j]? = some '\\') := by
  have key := fun (c : DumperConfig) (v : String) (l : Int) =>
    printed_of_framed (framed_string c v) l
  simp only at key
  have hun : ∀ (c : DumperConfig) (v : String) (l : Int),
      unescape (printed c (StringLiteral v) l) = v.toList := by
    intro c v l
    rw [key, unescape, strip_delimiters, unescapeBody_escapedText]
  have hq : quotesEscaped (printed cfg (StringLiteral s1) level).tail.dropLast = true := by
    rw [key, strip_delimiters, quotesEscaped_escapedText]
  refine ⟨?_, hun cfg s1 level, hq, quote_after_backslash _ hq⟩
  intro h
  have h2 := congrArg unescape h
  rw [hun, hun] at h2
  exact String.toList_inj.1 h2

/-- C20, witness: the strings `a"` and `a\"` print to different texts, `"a\""` and
`"a\\\""`, and the unescape function gives `a"` back from the first. -/
theorem C20_string_literal_invertible_witness :
    printed sampleConfig (StringLiteral "a\"") 0 = "\"a\\\"\"".toList ∧
    printed sampleConfig (StringLiteral "a\\\"") 0 = "\"a\\\\\\\"\"".toList ∧
    unescape "\"a\\\"\"".toList = "a\"".toList ∧
    (printed sampleConfig (StringLiteral "a\"") 0
        = printed sampleConfig (StringLiteral "a\"") 5 → "a\"" = "a\"") :=
  ⟨by decide, by decide, by decide,
    (C20_string_literal_invertible sampleConfig sampleConfig "a\"" "a\"" 0 5).1⟩

/-! ## The evaluator: operands and the stack below -/

/-- C16, the claim as stated fails: in `3 + (1; 2)` both children evaluate
successfully, the value of the left child is 3 and the value of the right
child is 2, the operator applied to them gives 5, and the value pushed is
3 = 1 + 2: the left operand is the entry below the top, which the right child
pushed. -/
theorem C16_sequence_right_child :
    evalNode (IntegerLiteral 3) [] = .ok [3] ∧
    evalNode (Sequence [IntegerLiteral 1, IntegerLiteral 2]) [3] = .ok [3, 1, 2] ∧
    back [3] 1 = some 3 ∧ back [3, 1, 2] 1 = some 2 ∧
    binop_eval o_plus 3 2 = some 5 ∧
    evalNode (BinaryOperator o_plus (IntegerLiteral 3)
      (Sequence [IntegerLiteral 1, IntegerLiteral 2])) [] = .ok [3, 3] ∧
    evalNode (BinaryOperator o_plus (IntegerLiteral 3)
      (Sequence [IntegerLiteral 1, IntegerLiteral 2])) [] ≠ .ok [5] ∧
    evalNode (BinaryOperator o_plus (IntegerLiteral 3)
      (Sequence [IntegerLiteral 1, IntegerLiteral 2])) [] ≠ .ok [3, 1, 5] := by
  decide

/-- C16 (amended): when the two children of a BinaryOperator evaluate
successfully, the operands are the two top entries of the stack that the right
child leaves: the right operand is the top, which is the value of the right
child, and the left operand is the entry below it; that entry is the value of
the left child when the right child leaves exactly one entry more than the
stack it was started on.  The handler then replaces the two entries by the
operator applied to them (or faults, for a division that faults). -/
theorem C16_binop_operands (op : Operator) (l r : Node) (s s1 s2 : Stack)
    (hl : evalNode l s = .ok s1) (hr : evalNode r s1 = .ok s2) :
    (∀ (base : Stack) (a b : Int), s2 = base ++ [a, b] →
      back s2 1 = some b ∧
      evalNode (BinaryOperator op l r) s =
        match binop_eval op a b with
        | some v => .ok (base ++ [v])
        | none => .error .undefined) ∧
    (∀ (s0 : Stack) (a b : Int), s1 = s0 ++ [a] → s2 = s1 ++ [b] →
      back s1 1 = some a ∧ back s2 1 = some b ∧
      evalNode (BinaryOperator op l r) s =
        match binop_eval op a b with
        | some v => .ok (s0 ++ [v])
        | none => .error .undefined) := by
  rw [binop_children_ok op hl hr]
  refine ⟨?_, ?_⟩
  · intro base a b h
    subst h
    exact ⟨back_two_snd base a b, binop_apply_two op base a b⟩
  · intro s0 a b h1 h2
    subst h1
    subst h2
    have h : (s0 ++ [a]) ++ [b] = s0 ++ [a, b] := by simp
    rw [h]
    exact ⟨back_one s0 a, back_two_snd s0 a b, binop_apply_two op s0 a b⟩

/-- C16, witness: in `(1; 2) + 3` the left child leaves [1, 2], whose top is its
value 2, the right child leaves one entry more, [1, 2, 3], and the handler
leaves [1, 5]. -/
theorem C16_binop_operands_witness :
    evalNode (Sequence [IntegerLiteral 1, IntegerLiteral 2]) [] = .ok ([1] ++ [2]) ∧
    evalNode (IntegerLiteral 3) ([1] ++ [2]) = .ok (([1] ++ [2]) ++ [3]) ∧
    binop_eval o_plus 2 3 = some 5 ∧
    evalNode (BinaryOperator o_plus (Sequence [IntegerLiteral 1, IntegerLiteral 2])
      (IntegerLiteral 3)) [] =
        (match binop_eval o_plus 2 3 with
        | some v => .ok ([1] ++ [v])
        | none => .error .undefined) :=
  ⟨by decide, by decide, by decide,
    ((C16_binop_operands o_plus (Sequence [IntegerLiteral 1, IntegerLiteral 2])
      (IntegerLiteral 3) [] ([1] ++ [2]) (([1] ++ [2]) ++ [3]) (by decide) (by decide)).2
        [1] 2 3 rfl rfl).2.2⟩

/-- C18, the claim as stated fails: `-2147483648 / -1` is built from two literals
and a division whose divisor is not zero, and its evaluation does not succeed:
the quotient is not an `int` and the division faults. -/
theorem C18_int_min_division_fails :
    pushingShape (BinaryOperator o_divide (IntegerLiteral (-2147483648)) (IntegerLiteral (-1)))
      = true ∧
    divisionMeets zeroDivisor
      (BinaryOperator o_divide (IntegerLiteral (-2147483648)) (IntegerLiteral (-1))) [] = false ∧
    isInt (-2147483648) = true ∧ isInt (-1) = true ∧
    evalNode (BinaryOperator o_divide (IntegerLiteral (-2147483648)) (IntegerLiteral (-1))) []
      = .error .undefined := by
  decide

/-- C18 (amended): for every tree built only from IntegerLiteral, BinaryOperator,
IfThenElse and non-empty Sequence nodes whose evaluation meets no division
that faults (divisor zero, or INT_MIN / -1), the evaluation from any starting
stack s succeeds, and the final stack is s followed by at least one new value;
the new values are the same from every starting stack: the entries of s are
not read, popped or changed. -/
theorem C18_supported_tree_pushes (t : Node) (s : Stack) (hshape : pushingShape t = true)
    (hdiv : divisionMeets faultyDivision t s = false) :
    ∃ vs : Stack, vs ≠ [] ∧ evalNode t s = .ok (s ++ vs) ∧
      ∀ s' : Stack, evalNode t s' = .ok (s' ++ vs) := by
  rcases pushing_or_fault t hshape with hf | ⟨vs, hvs, h⟩
  · rw [hf s] at hdiv
    cases hdiv
  · exact ⟨vs, hvs, (h s).2, fun s' => (h s').2⟩

/-- C18, witness: `if (7 / 2) then (1; 2 * 3) else 0` from the stack [9, 9]
leaves [9, 9, 1, 6]. -/
theorem C18_supported_tree_pushes_witness :
    evalNode (IfThenElse (BinaryOperator o_divide (IntegerLiteral 7) (IntegerLiteral 2))
      (Sequence [IntegerLiteral 1, BinaryOperator o_times (IntegerLiteral 2) (IntegerLiteral 3)])
      (IntegerLiteral 0)) [9, 9] = .ok [9, 9, 1, 6] ∧
    (∃ vs : Stack, vs ≠ [] ∧
      evalNode (IfThenElse (BinaryOperator o_divide (IntegerLiteral 7) (IntegerLiteral 2))
        (Sequence [IntegerLiteral 1,
          BinaryOperator o_times (IntegerLiteral 2) (IntegerLiteral 3)])
        (IntegerLiteral 0)) [9, 9] = .ok ([9, 9] ++ vs) ∧
      ∀ s' : Stack,
        evalNode (IfThenElse (BinaryOperator o_divide (IntegerLiteral 7) (IntegerLiteral 2))
          (Sequence [IntegerLiteral 1,
            BinaryOperator o_times (IntegerLiteral 2) (IntegerLiteral 3)])
          (IntegerLiteral 0)) s' = .ok (s' ++ vs)) :=
  ⟨by decide, C18_supported_tree_pushes _ [9, 9] (by decide) (by decide)⟩

end ast
